import Mathlib

/-!
Verification of the LogFinder change-attribution engine.

This file gives a shallow embedding, in Lean, of the core functions of the
repository and proves properties about them:

* `parse_diff_output`   (p7_create_test_data.py, GitDiffAnalyzer)
* `_parse_diff_chunks`  (src/commit_finder.py, CommitFinder)
* `_match_with_fix_commit` and `analyze_fix_commit` (p7_create_test_data.py)
* `VersionResolver.resolve` and `_detect_tag_prefixes` (p7_create_test_data.py)
* `_search_project_commits` and `_get_commit_file_changes` (src/commit_finder.py)

Python dictionaries are modelled as association lists with overwrite-on-insert,
Python sets of line numbers as duplicate-free lists, and Python string
truthiness (None and the empty string are falsy) is modelled explicitly.
-/

/-- Membership-preserving insertion modelling `set.add` on a Python set,
keeping first-insertion order. -/
def setAdd (s : List Nat) (n : Nat) : List Nat :=
  if n ∈ s then s else s ++ [n]

/-- Insertion into a sorted list of naturals. -/
def insertSorted (n : Nat) : List Nat → List Nat
  | [] => [n]
  | m :: ms => if n ≤ m then n :: m :: ms else m :: insertSorted n ms

/-- Ascending sort, modelling Python `sorted` on a set of line numbers. -/
def sortNat (l : List Nat) : List Nat := l.foldr insertSorted []

/-- Python dict assignment `d[k] = v`: overwrite the value when the key is
present, append otherwise. -/
def dictInsert {A : Type} (d : List (String × A)) (k : String) (v : A) :
    List (String × A) :=
  if d.any (fun kv => kv.1 == k) then
    d.map (fun kv => if kv.1 == k then (k, v) else kv)
  else d ++ [(k, v)]

/-- Python dict lookup `d.get(k)`. -/
def dictLookup {A : Type} (d : List (String × A)) (k : String) : Option A :=
  (d.find? (fun kv => kv.1 == k)).map (fun kv => kv.2)

/-- Truthiness of an optional string in Python: `None` and `""` are falsy. -/
def truthy : Option String → Bool
  | none => false
  | some s => s != ""

/-- Python `str.strip()` on the whitespace characters relevant here,
executable over characters: drop whitespace from both ends. -/
def pstrip (s : String) : String :=
  String.mk (((s.data.dropWhile Char.isWhitespace).reverse.dropWhile Char.isWhitespace).reverse)

/-- Consume a maximal run of decimal digits, accumulating their value. -/
def takeDigits : Nat → List Char → Nat × List Char
  | acc, [] => (acc, [])
  | acc, c :: cs =>
    if c.isDigit then takeDigits (acc * 10 + (c.toNat - 48)) cs else (acc, c :: cs)

/-- Read one or more decimal digits from the front of a character list. -/
def readNat : List Char → Option (Nat × List Char)
  | [] => none
  | c :: cs => if c.isDigit then some (takeDigits (c.toNat - 48) cs) else none

/-- Strip an exact literal from the front of a character list. -/
def stripLit : List Char → List Char → Option (List Char)
  | [], rest => some rest
  | _ :: _, [] => none
  | p :: ps, c :: cs => if p == c then stripLit ps cs else none

/-- Helper of `splitNl`: accumulate the current segment (reversed). -/
def splitNlAux : List Char → List Char → List String
  | acc, [] => [String.mk acc.reverse]
  | acc, c :: rest =>
    if c = '\n' then String.mk acc.reverse :: splitNlAux [] rest
    else splitNlAux (c :: acc) rest

/-- Python `s.split("\n")`: segments between newline characters, keeping
empty segments (the empty string yields one empty segment). -/
def splitNl (s : String) : List String := splitNlAux [] s.data

/-- Python `str.startswith`, phrased through `stripLit` so that proofs can
reason about it structurally. -/
def swith (s p : String) : Bool := (stripLit p.data s.data).isSome

/-- Python slicing `s[n:]`. -/
def sdrop (s : String) (n : Nat) : String := String.mk (s.data.drop n)

/-- Python slicing `s[:n]`. -/
def stake (s : String) (n : Nat) : String := String.mk (s.data.take n)

/-- Python `str.endswith`, executable over characters. -/
def ewith (s p : String) : Bool := (stripLit p.data.reverse s.data.reverse).isSome

/-- The optional `,count` part of a hunk header: consumed only when a comma
directly followed by digits is present (matching regex backtracking of the
pattern fragment for an optional comma-count group). -/
def optCount (cs : List Char) : Option Nat × List Char :=
  match cs with
  | ',' :: rest =>
    match readNat rest with
    | some (n, r2) => (some n, r2)
    | none => (none, cs)
  | _ => (none, cs)

/-- The hunk-header regex of `CommitFinder._parse_diff_chunks`, which captures
both counts; missing counts default to 1 as in the source. Anchored at the
start of the line, arbitrary text may follow the closing marker. -/
def cfHunkHeader (line : String) : Option (Nat × Nat × Nat × Nat) :=
  match stripLit "@@ -".data line.data with
  | none => none
  | some r1 =>
    match readNat r1 with
    | none => none
    | some (o, r2) =>
      let oc := optCount r2
      match stripLit " +".data oc.2 with
      | none => none
      | some r4 =>
        match readNat r4 with
        | none => none
        | some (n, r5) =>
          let nc := optCount r5
          match stripLit " @@".data nc.2 with
          | none => none
          | some _ => some (o, oc.1.getD 1, n, nc.1.getD 1)

/-- The hunk-header regex of `GitDiffAnalyzer.parse_diff_output`, which
captures only the two start positions. -/
def p7HunkHeader (line : String) : Option (Nat × Nat) :=
  match cfHunkHeader line with
  | none => none
  | some (o, _, n, _) => some (o, n)

/-- One deleted-line or added-line record of `parse_diff_output`. -/
structure LineEntry where
  line_number : Nat
  content : String
deriving DecidableEq

/-- The per-file record stored in the `results` dict of `parse_diff_output`. -/
structure DiffFileData where
  deleted_lines : List LineEntry
  added_lines : List LineEntry
  old_path : Option String
  new_path : Option String
  is_rename : Bool
deriving DecidableEq

/-- The mutable local state of `parse_diff_output` while scanning lines. -/
structure P7State where
  results : List (String × DiffFileData)
  current_file : Option String
  current_old_file : Option String
  current_new_file : Option String
  current_old_start : Nat
  current_new_start : Nat
  deleted_lines : List LineEntry
  added_lines : List LineEntry
  is_rename : Bool
  line_offset : Nat
deriving DecidableEq

/-- Flush the accumulated file data into the results dict, exactly under the
source condition `if current_file and (deleted_lines or is_rename)`. -/
def p7Save (st : P7State) : List (String × DiffFileData) :=
  if truthy st.current_file && (!st.deleted_lines.isEmpty || st.is_rename) then
    dictInsert st.results (st.current_file.getD "")
      { deleted_lines := st.deleted_lines
        added_lines := st.added_lines
        old_path := st.current_old_file
        new_path := st.current_new_file
        is_rename := st.is_rename }
  else st.results

/-- One iteration of the line loop of `parse_diff_output`, with the branches
in source order. -/
def p7Step (st : P7State) (line : String) : P7State :=
  if swith line "diff --git" then
    { st with
      results := p7Save st
      current_file := none
      current_old_file := none
      current_new_file := none
      deleted_lines := []
      added_lines := []
      is_rename := false }
  else if swith line "rename from " then
    { st with current_old_file := some (sdrop line 12), is_rename := true }
  else if swith line "rename to " then
    { st with
      current_new_file := some (sdrop line 10)
      current_file := st.current_old_file }
  else if swith line "--- a/" then
    if st.is_rename then st
    else
      { st with
        current_file := some (sdrop line 6)
        current_old_file := some (sdrop line 6) }
  else if swith line "--- /dev/null" then
    if st.is_rename then st else { st with current_file := none }
  else if swith line "+++ b/" then
    if !st.is_rename && !truthy st.current_file then
      { st with
        current_file := some (sdrop line 6)
        current_new_file := some (sdrop line 6) }
    else st
  else if swith line "@@" then
    match p7HunkHeader line with
    | some (o, n) =>
        { st with
          current_old_start := o
          current_new_start := n
          line_offset := 0 }
    | none => { st with line_offset := 0 }
  else if swith line "-" && !swith line "---" then
    let st2 :=
      if truthy st.current_file then
        { st with deleted_lines := st.deleted_lines ++
            [{ line_number := st.current_old_start + st.line_offset, content := sdrop line 1 }] }
      else st
    { st2 with line_offset := st2.line_offset + 1 }
  else if swith line "+" && !swith line "+++" then
    if truthy st.current_file then
      { st with added_lines := st.added_lines ++
          [{ line_number := st.current_new_start + st.added_lines.length, content := sdrop line 1 }] }
    else st
  else if swith line " " then
    { st with line_offset := st.line_offset + 1 }
  else st

/-- The initial state of `parse_diff_output`. -/
def p7Init : P7State :=
  { results := []
    current_file := none
    current_old_file := none
    current_new_file := none
    current_old_start := 0
    current_new_start := 0
    deleted_lines := []
    added_lines := []
    is_rename := false
    line_offset := 0 }

/-- Line-list core of `GitDiffAnalyzer.parse_diff_output`: scan all lines and
flush the final file. -/
def parseDiffOutputLines (lines : List String) : List (String × DiffFileData) :=
  p7Save (lines.foldl p7Step p7Init)

/-- `GitDiffAnalyzer.parse_diff_output`: split the diff text into lines and
run the state machine. -/
def parseDiffOutput (text : String) : List (String × DiffFileData) :=
  parseDiffOutputLines (splitNl text)

/-- One line-change record inside a chunk, as produced by
`CommitFinder._parse_diff_chunks` and consumed (as part of the commit JSON)
by `GitDiffAnalyzer._match_with_fix_commit`. The source dict key `type` is
rendered as `ctype`. -/
structure ChunkChange where
  line_number : Nat
  ctype : String
  content : String
deriving DecidableEq

/-- A parsed hunk of `CommitFinder._parse_diff_chunks`. -/
structure Chunk where
  old_start : Nat
  old_count : Nat
  new_start : Nat
  new_count : Nat
  changes : List ChunkChange
deriving DecidableEq

/-- State of the line loop of `_parse_diff_chunks`. In the source,
`current_chunk` is a dict that may already have been appended to `chunks`
while still being mutated; `cur` therefore carries, next to the chunk value,
the number of references to it already pushed into the output list, and
`done` holds the chunks that can no longer change. -/
structure CFState where
  done : List Chunk
  cur : Option (Chunk × Nat)
  line_no : Nat
deriving DecidableEq

/-- One iteration of the line loop of `_parse_diff_chunks`. On a line
starting with the hunk marker the current chunk is appended first; when the
header fails the regex the source keeps `current_chunk` pointing at the
already-appended dict, so later change lines keep accumulating into it. -/
def cfStep (st : CFState) (line : String) : CFState :=
  if swith line "@@" then
    match st.cur with
    | some (c, k) =>
      match cfHunkHeader line with
      | some (o, oc, n, nc) =>
        { done := st.done ++ List.replicate (k + 1) c
          cur := some ({ old_start := o, old_count := oc, new_start := n,
                         new_count := nc, changes := [] }, 0)
          line_no := o }
      | none => { st with cur := some (c, k + 1) }
    | none =>
      match cfHunkHeader line with
      | some (o, oc, n, nc) =>
        { st with
          cur := some ({ old_start := o, old_count := oc, new_start := n,
                         new_count := nc, changes := [] }, 0)
          line_no := o }
      | none => st
  else
    match st.cur with
    | none => st
    | some (c, k) =>
      if swith line "+" || swith line "-" || swith line " " then
        let c2 :=
          if swith line "+" then
            { c with changes := c.changes ++ [{ line_number := st.line_no, ctype := "ADD", content := sdrop line 1 }] }
          else if swith line "-" then
            { c with changes := c.changes ++ [{ line_number := st.line_no, ctype := "DELETE", content := sdrop line 1 }] }
          else c
        { st with cur := some (c2, k), line_no := st.line_no + 1 }
      else st

/-- Line-list core of `CommitFinder._parse_diff_chunks`: scan the lines and
flush the final chunk (one more reference of it is appended at the end). -/
def parseDiffChunksLines (lines : List String) : List Chunk :=
  let st := lines.foldl cfStep { done := [], cur := none, line_no := 0 }
  match st.cur with
  | some (c, k) => st.done ++ List.replicate (k + 1) c
  | none => st.done

/-- `CommitFinder._parse_diff_chunks` on raw diff text. -/
def parseDiffChunks (text : String) : List Chunk :=
  parseDiffChunksLines (splitNl text)

/-- A per-file entry of the commit record (`files_changed.files` in the JSON
written by `CommitFinder` and read back by `GitDiffAnalyzer`). `old_path` is
absent from entries the scanner itself writes; `analyze_fix_commit` reads it
with `.get`, hence the `Option`. -/
structure FileInfo where
  path : String
  change_type : String
  old_path : Option String
  insertions : Nat
  deletions : Nat
  lines_changed : Nat
  chunks : List Chunk
deriving DecidableEq

/-- First element of `files` whose `path` equals the lookup path: the linear
search of `_match_with_fix_commit` over `commit_data` file entries. -/
def firstFileWithPath (files : List FileInfo) (p : String) : Option FileInfo :=
  files.find? (fun fd => fd.path == p)

/-- First deleted line of the cross-diff whose stripped content equals the
stripped content of the fix-commit change (first-match policy). -/
def firstContentMatch (deleted : List LineEntry) (ch : ChunkChange) : Option LineEntry :=
  deleted.find? (fun d => pstrip ch.content == pstrip d.content)

/-- Step of the matching loop of `_match_with_fix_commit` for one fix-commit
change: DELETE and MODIFY changes are compared against the cross-diff deleted
lines; on a first match the deleted-line number joins `modified_lines`,
otherwise the fix-side number joins `unidentified_lines`. -/
def matchStep (deleted : List LineEntry) (acc : List Nat × List Nat) (ch : ChunkChange) :
    List Nat × List Nat :=
  if ch.ctype == "DELETE" || ch.ctype == "MODIFY" then
    match firstContentMatch deleted ch with
    | some d => (setAdd acc.1 d.line_number, acc.2)
    | none => (acc.1, setAdd acc.2 ch.line_number)
  else acc

/-- The double loop over chunks and changes of `_match_with_fix_commit`. -/
def collectMatches (deleted : List LineEntry) (chunks : List Chunk) :
    List Nat × List Nat :=
  (chunks.flatMap (fun c => c.changes)).foldl (matchStep deleted) ([], [])

/-- The per-file result dict built by `_match_with_fix_commit` (the nested
`affected_version` and `fixing_commit` dicts are flattened; `diff_command`
is filled in later by `analyze_fix_commit`). -/
structure MatchResult where
  av_filename : String
  modified_lines : List Nat
  fix_filename : String
  unidentified_lines : List Nat
  is_rename : Bool
  old_path : Option String
  new_path : Option String
  diff_command : String
deriving DecidableEq

/-- The lookup path used by `_match_with_fix_commit`: the fix-commit path if
given and truthy, the affected-version path otherwise. -/
def lookupPathOf (file_path : String) (fix_file_path : Option String) : String :=
  match fix_file_path with
  | some p => if p == "" then file_path else p
  | none => file_path

/-- `GitDiffAnalyzer._match_with_fix_commit`. Returns `none` when the file is
missing from the diff results, is not a Java file, or has no entry in the
commit data. -/
def matchWithFixCommit (file_path : String) (diff_results : List (String × DiffFileData))
    (commit_files : List FileInfo) (fix_file_path : Option String) : Option MatchResult :=
  match dictLookup diff_results file_path with
  | none => none
  | some diff_data =>
    let isJava := ewith file_path ".java" ||
      (diff_data.is_rename && truthy diff_data.new_path &&
        ewith (diff_data.new_path.getD "") ".java")
    if !isJava then none
    else
      let lookup_path := lookupPathOf file_path fix_file_path
      match firstFileWithPath commit_files lookup_path with
      | none => none
      | some file_changes =>
        let mu := collectMatches diff_data.deleted_lines file_changes.chunks
        some { av_filename := file_path
               modified_lines := sortNat mu.1
               fix_filename := lookup_path
               unidentified_lines := sortNat mu.2
               is_rename := diff_data.is_rename
               old_path := if diff_data.is_rename then some file_path else none
               new_path := if diff_data.is_rename then some (diff_data.new_path.getD "") else none
               diff_command := "" }

/-- The per-(version, fix-commit) result record of `analyze_fix_commit`.
In the unresolved-version branch the source returns a dict without the URL
and checkout fields; those are modelled as empty strings there. -/
structure AnalysisResult where
  error : Option String
  affected_version : String
  affected_version_sha : Option String
  affected_version_url : String
  fixing_commit_sha : String
  fixing_commit_url : String
  checkout_command : String
  changes : List MatchResult
deriving DecidableEq

/-- State threaded through the two file loops of `analyze_fix_commit`. -/
structure AnalyzeState where
  adr : List (String × DiffFileData)
  processed : List String
  changes : List MatchResult
deriving DecidableEq

/-- The dict of fix-commit files restricted to change types MODIFY, DELETE
and RENAME, keyed by path (`fix_files` in `analyze_fix_commit`). -/
def fixFilesOf (commit_files : List FileInfo) : List (String × FileInfo) :=
  commit_files.foldl
    (fun d fd =>
      if fd.change_type == "MODIFY" || fd.change_type == "DELETE" || fd.change_type == "RENAME"
      then dictInsert d fd.path fd else d) []

/-- First loop of `analyze_fix_commit`: explicit RENAME entries of the commit
data. The diff entry is mutated in place (visible through `adr`), the old
path marked processed, and a successful match appended with rename fields. -/
def renameStep (commit_files : List FileInfo) (avSha fixSha : String)
    (st : AnalyzeState) (kv : String × FileInfo) : AnalyzeState :=
  if kv.2.change_type == "RENAME" then
    let op := kv.2.old_path.getD ""
    if op != "" then
      match dictLookup st.adr op with
      | none => st
      | some dd =>
        let dd2 := { dd with is_rename := true, new_path := some kv.1, old_path := some op }
        let adr2 := dictInsert st.adr op dd2
        let processed2 := st.processed ++ [op]
        match matchWithFixCommit op [(op, dd2)] commit_files (some kv.1) with
        | none => { adr := adr2, processed := processed2, changes := st.changes }
        | some fr =>
          { adr := adr2
            processed := processed2
            changes := st.changes ++
              [{ fr with
                  diff_command := "git diff " ++ avSha ++ " " ++ fixSha ++ " -- " ++ op ++ " " ++ kv.1
                  is_rename := true
                  old_path := some op
                  new_path := some kv.1 }] }
    else st
  else st

/-- Second loop of `analyze_fix_commit`: remaining files of the cross-diff.
For rename entries detected by the diff the fix file is found by new path or
recorded old path; other files are looked up directly. -/
def diffFileStep (fix_files : List (String × FileInfo)) (commit_files : List FileInfo)
    (avSha fixSha : String) (processed : List String)
    (changes : List MatchResult) (kv : String × DiffFileData) : List MatchResult :=
  if kv.1 ∈ processed then changes
  else
    let found : Option (String × FileInfo) :=
      if kv.2.is_rename then
        let np := kv.2.new_path.getD ""
        fix_files.find? (fun pf =>
          pf.1 == np || (truthy pf.2.old_path && pf.2.old_path.getD "" == kv.1))
      else
        match dictLookup fix_files kv.1 with
        | some fd => some (kv.1, fd)
        | none => none
    match found with
    | none => changes
    | some pf =>
      match matchWithFixCommit kv.1 [(kv.1, kv.2)] commit_files (some pf.1) with
      | none => changes
      | some fr =>
        if kv.2.is_rename then
          changes ++
            [{ fr with
                diff_command := "git diff " ++ avSha ++ " " ++ fixSha ++ " -- " ++ kv.1 ++ " " ++
                  (kv.2.new_path.getD "")
                is_rename := true
                old_path := some kv.1
                new_path := some (kv.2.new_path.getD "") }]
        else
          changes ++ [{ fr with diff_command := "git diff " ++ avSha ++ " " ++ fixSha ++ " -- " ++ kv.1 }]

/-- `GitDiffAnalyzer.analyze_fix_commit`. The cross-diff text between the
resolved affected version and the fix commit is supplied as `diffText`;
`resolve` stands for `VersionResolver.resolve` on the repository at hand. -/
def analyzeFixCommit (resolve : String → Option String) (project : String)
    (fix_commit_sha affected_version : String) (commit_files : List FileInfo)
    (diffText : String) : AnalysisResult :=
  match resolve affected_version with
  | none =>
    { error := some ("Could not resolve version " ++ affected_version ++ " to SHA")
      affected_version := affected_version
      affected_version_sha := none
      affected_version_url := ""
      fixing_commit_sha := fix_commit_sha
      fixing_commit_url := ""
      checkout_command := ""
      changes := [] }
  | some avSha =>
    let all := parseDiffOutput diffText
    let fix_files := fixFilesOf commit_files
    let st1 := fix_files.foldl (renameStep commit_files avSha fix_commit_sha)
      { adr := all, processed := [], changes := [] }
    let chs := st1.adr.foldl
      (diffFileStep fix_files commit_files avSha fix_commit_sha st1.processed) st1.changes
    { error := none
      affected_version := affected_version
      affected_version_sha := some avSha
      affected_version_url := "https://github.com/apache/" ++ project ++ "/commit/" ++ avSha
      fixing_commit_sha := fix_commit_sha
      fixing_commit_url := "https://github.com/apache/" ++ project ++ "/commit/" ++ fix_commit_sha
      checkout_command := "git checkout " ++ fix_commit_sha
      changes := chs }

/-- One fix commit as read from the issue JSON by `process_single_issue`:
its full sha and its `files_changed.files` list. -/
structure CommitInput where
  full_sha : String
  files : List FileInfo
deriving DecidableEq

/-- The inner commit loop of `process_single_issue` for one affected version:
each fix commit is checked out (skipped when checkout fails) and analyzed.
`diffOf` stands for the git cross-diff between two commits of the clone. -/
def perVersionResults (resolve : String → Option String) (checkout : String → Bool)
    (diffOf : String → String → String) (project : String)
    (commits : List CommitInput) (v : String) : List AnalysisResult :=
  (commits.filter (fun c => checkout c.full_sha)).map
    (fun c =>
      analyzeFixCommit resolve project c.full_sha v c.files
        (match resolve v with
         | some avSha => diffOf avSha c.full_sha
         | none => ""))

/-- `process_single_issue`: every affected version is processed with a fresh
clone, and the per-version results are concatenated in order. -/
def processSingleIssue (resolve : String → Option String) (checkout : String → Bool)
    (diffOf : String → String → String) (project : String)
    (commits : List CommitInput) (versions : List String) : List AnalysisResult :=
  versions.flatMap (perVersionResults resolve checkout diffOf project commits)

/-- The repository surface `VersionResolver` touches: tag and branch names
with the commits they point to, and generic ref resolution (`rev_parse`,
already folded with its try/except into an `Option`). -/
structure RepoRefs where
  tags : List (String × String)
  heads : List (String × String)
  revParse : String → Option String

/-- Name lookup in a GitPython `IterableList` (`repo.tags[name].commit`). -/
def lookupName (l : List (String × String)) (n : String) : Option String :=
  (l.find? (fun kv => kv.1 == n)).map (fun kv => kv.2)

/-- Python substring containment `sub in s`, executable over characters. -/
def containsSub (sub : List Char) : List Char → Bool
  | [] => sub.isEmpty
  | c :: cs => (stripLit sub (c :: cs)).isSome || containsSub sub cs

/-- `VersionResolver._detect_tag_prefixes`: project-specific tag naming,
keyed on substrings of the lowercased remote URL. -/
def detectTagPrefixes (remoteUrl : String) : List String :=
  let u := remoteUrl.data.map Char.toLower
  if containsSub "zookeeper".data u then ["release-", "RELEASE-", ""]
  else if containsSub "hbase".data u then ["rel/", "REL/", ""]
  else ["v", "V", "release-", "rel/", ""]

/-- First prefixed-tag hit of the loop `for prefix in self.tag_prefixes`. -/
def firstPfxHit (tags : List (String × String)) (pfxs : List String) (version : String) :
    Option String :=
  match pfxs with
  | [] => none
  | p :: ps =>
    match lookupName tags (p ++ version) with
    | some sha => some sha
    | none => firstPfxHit tags ps version

/-- `VersionResolver.resolve`: exact tag, then prefixed tags in order, then
branch names, then generic ref resolution. -/
def resolveVersion (r : RepoRefs) (pfxs : List String) (version : String) : Option String :=
  match lookupName r.tags version with
  | some sha => some sha
  | none =>
    match firstPfxHit r.tags pfxs version with
    | some sha => some sha
    | none =>
      if (r.heads.map (fun kv => kv.1)).contains version then lookupName r.heads version
      else r.revParse version

/-- ASCII word character, the `\w` class of patterns used on issue keys. -/
def isWordChar (c : Char) : Bool := c.isAlphanum || c == '_'

/-- Case-insensitive literal match of the key at the front of a line,
returning the remaining characters (the regex engine consuming the escaped,
case-folded key). -/
def ciStrip : List Char → List Char → Option (List Char)
  | [], rest => some rest
  | _ :: _, [] => none
  | k :: ks, c :: cs => if k.toLower == c.toLower then ciStrip ks cs else none

/-- The word-boundary assertion after the matched key: exactly one side of
the position is a word character (a missing character counts as non-word). -/
def boundaryAfter (lastOfKey : Option Char) (rest : List Char) : Bool :=
  let left := match lastOfKey with
    | some c => isWordChar c
    | none => false
  let right := match rest with
    | c :: _ => isWordChar c
    | [] => false
  left != right

/-- The pattern `^<key>\b` applied at the start of one line. -/
def lineMatchPlain (key line : List Char) : Bool :=
  match ciStrip key line with
  | none => false
  | some rest => boundaryAfter key.getLast? rest

/-- The pattern `^#<key>\b` applied at the start of one line. -/
def lineMatchHash (key line : List Char) : Bool :=
  match line with
  | '#' :: ls => lineMatchPlain key ls
  | _ => false

/-- The pattern `^[<key>]` applied at the start of one line (literal opening
and closing brackets, no boundary assertion). -/
def lineMatchBracket (key line : List Char) : Bool :=
  match line with
  | '[' :: ls =>
    match ciStrip key ls with
    | some (']' :: _) => true
    | _ => false
  | _ => false

/-- The three issue-key patterns of `_search_project_commits`, searched over
a multi-line commit message: with `re.MULTILINE` the anchor matches at the
start of the message and after every newline, so the search succeeds exactly
when some line of the message matches one of the patterns at its start. -/
def scannerMatches (key msg : String) : Bool :=
  (splitNl msg).any (fun line =>
    lineMatchPlain key.data line.data || lineMatchHash key.data line.data ||
      lineMatchBracket key.data line.data)

/-- One commit of the repository history, as visible to the scanner. -/
structure SCommit where
  hexsha : String
  parents : List String
  message : String
  author : String
  author_email : String
  date : String
deriving DecidableEq

/-- One entry of a GitPython diff between two trees, as read by
`_get_commit_file_changes`. `diffText` models the patch bytes carried by the
diff item (empty when absent or falsy). -/
structure DiffItem where
  a_path : Option String
  b_path : Option String
  new_file : Bool
  deleted_file : Bool
  renamed_file : Bool
  diffText : String
deriving DecidableEq

/-- The repository backend used by the scanner: `diffOf none c` is the diff
of commit `c` against the empty tree (`git.NULL_TREE`), `diffOf (some p) c`
the diff of `c` against its parent `p`; `statsTotal` and `statsFile` model
`commit.stats.total` and `commit.stats.files.get(path, zeros)`. -/
structure RepoModel where
  diffOf : Option String → String → List DiffItem
  statsTotal : String → Nat × Nat × Nat
  statsFile : String → String → Nat × Nat

/-- `CommitFinder._get_change_type`. -/
def getChangeType (di : DiffItem) : String :=
  if di.new_file then "ADD"
  else if di.deleted_file then "DELETE"
  else if di.renamed_file then "RENAME"
  else "MODIFY"

/-- `CommitFinder._truncate_message` with the default limit of 300. -/
def truncateMessage (s : String) : String :=
  if s.data.length > 300 then stake s 300 ++ "..." else s

/-- The `files_changed` record of a commit. -/
structure FilesChanged where
  total_files : Nat
  total_insertions : Nat
  total_deletions : Nat
  files : List FileInfo
deriving DecidableEq

/-- Stable descending insertion by `lines_changed`, matching the stable
Python `sort(key=..., reverse=True)`. -/
def insertByLinesDesc (x : FileInfo) : List FileInfo → List FileInfo
  | [] => [x]
  | y :: ys => if x.lines_changed ≤ y.lines_changed then y :: insertByLinesDesc x ys
               else x :: y :: ys

/-- `CommitFinder._get_commit_file_changes`: the diff is taken against the
first parent when one exists, against the empty tree otherwise; files with a
falsy path are skipped; files are sorted by most lines changed. -/
def getCommitFileChanges (repo : RepoModel) (c : SCommit) : FilesChanged :=
  let ts := repo.statsTotal c.hexsha
  let diff := match c.parents with
    | p :: _ => repo.diffOf (some p) c.hexsha
    | [] => repo.diffOf none c.hexsha
  let files := diff.foldl
    (fun acc di =>
      let fpOpt := if truthy di.b_path then di.b_path else di.a_path
      if truthy fpOpt then
        let fp := fpOpt.getD ""
        let fs := repo.statsFile c.hexsha fp
        acc ++ [{ path := fp
                  change_type := getChangeType di
                  old_path := none
                  insertions := fs.1
                  deletions := fs.2
                  lines_changed := fs.1 + fs.2
                  chunks := if di.diffText != "" then parseDiffChunks di.diffText else [] }]
      else acc) ([] : List FileInfo)
  { total_files := ts.1
    total_insertions := ts.2.1
    total_deletions := ts.2.2
    files := files.foldl (fun s x => insertByLinesDesc x s) [] }

/-- The commit record assembled for a matched commit. -/
structure CommitInfo where
  sha : String
  full_sha : String
  num_parents : Nat
  parent_full_sha : String
  author : String
  author_email : String
  date : String
  message : String
  branch : String
  github_url : String
  files_changed : FilesChanged
deriving DecidableEq

/-- Assembly of `commit_info` in `_search_project_commits`. The source
evaluates `commit.parents[0].hexsha` unconditionally while building the
dict, which raises IndexError for a parentless commit before the record is
complete; that exception path is the `none` result. -/
def buildCommitInfo (repo : RepoModel) (url branch : String) (c : SCommit) :
    Option CommitInfo :=
  match c.parents with
  | [] => none
  | p :: _ =>
    some { sha := stake c.hexsha 8
           full_sha := c.hexsha
           num_parents := c.parents.length
           parent_full_sha := p
           author := c.author
           author_email := c.author_email
           date := c.date
           message := truncateMessage (pstrip c.message)
           branch := branch
           github_url := url ++ "/commit/" ++ c.hexsha
           files_changed := getCommitFileChanges repo c }

/-- Append a matched commit record to every matched issue, capped at 5
commits per issue (`if len(project_results[k]["commits"]) < 5`). -/
def appendMatched (ci : CommitInfo) (results : String → List CommitInfo)
    (matched : List String) : String → List CommitInfo :=
  matched.foldl
    (fun r k =>
      if (r k).length < 5 then (fun k2 => if k2 = k then r k ++ [ci] else r k2) else r)
    results

/-- The commit loop of `_search_project_commits` over one branch. Already
seen commits are skipped; every newly seen commit joins the dedup set and
the processed count; merge commits are not message-matched; a matched
parentless commit raises while its record is built, which aborts the rest of
the branch (the surrounding try keeps state accumulated so far). -/
def scanCommits (keys : List String) (repo : RepoModel) (url branch : String) :
    List String → (String → List CommitInfo) → Nat → List SCommit →
      List String × (String → List CommitInfo) × Nat
  | seen, results, cnt, [] => (seen, results, cnt)
  | seen, results, cnt, c :: cs =>
    if c.hexsha ∈ seen then scanCommits keys repo url branch seen results cnt cs
    else
      let seen2 := seen ++ [c.hexsha]
      let cnt2 := cnt + 1
      if 2 ≤ c.parents.length then scanCommits keys repo url branch seen2 results cnt2 cs
      else
        let matched := keys.filter (fun k => scannerMatches k c.message)
        if matched.isEmpty then scanCommits keys repo url branch seen2 results cnt2 cs
        else
          match buildCommitInfo repo url branch c with
          | none => (seen2, results, cnt2)
          | some ci =>
            scanCommits keys repo url branch seen2 (appendMatched ci results matched) cnt2 cs

/-- The branch loop of `_search_project_commits`: each branch history is
iterated up to the 50000-commit bound with the dedup set shared across
branches; the per-branch new-commit counts are collected. -/
def scanBranches (keys : List String) (repo : RepoModel) (url : String)
    (branches : List (String × List SCommit)) :
    List String × (String → List CommitInfo) × List Nat :=
  branches.foldl
    (fun acc br =>
      let r := scanCommits keys repo url br.1 acc.1 acc.2.1 0 (br.2.take 50000)
      (r.1, r.2.1, acc.2.2 ++ [r.2.2]))
    ([], fun _ => [], [])

/-- Body lines of a single well-formed hunk: ordinary add, delete or context
lines that do not collide with any file-header or hunk-header pattern of the
parsers. -/
def bodyLineOK (l : String) : Bool :=
  (swith l "+" || swith l "-" || swith l " ") &&
  !swith l "+++" && !swith l "---" && !swith l "@@" &&
  !swith l "diff --git" && !swith l "rename from " && !swith l "rename to " &&
  !swith l "--- a/" && !swith l "--- /dev/null" && !swith l "+++ b/"

/-- The line records the claim predicts for a hunk body: a DELETE is placed
at an old-side counter that ADD lines never advance, an ADD at a new-side
counter, and a context line advances both counters. -/
def specChangesC2 : Nat → Nat → List String → List ChunkChange
  | _, _, [] => []
  | oc, nc, l :: ls =>
    if swith l "+" then
      { line_number := nc, ctype := "ADD", content := sdrop l 1 } :: specChangesC2 oc (nc + 1) ls
    else if swith l "-" then
      { line_number := oc, ctype := "DELETE", content := sdrop l 1 } :: specChangesC2 (oc + 1) nc ls
    else specChangesC2 (oc + 1) (nc + 1) ls

/-- Claim C2 as stated, read against `_parse_diff_chunks`: every parsed hunk
carries the two-counter line numbering of `specChangesC2`. -/
def claimC2 : Prop :=
  ∀ (hline : String) (o oc n nc : Nat) (body : List String),
    swith hline "@@" = true →
    cfHunkHeader hline = some (o, oc, n, nc) →
    (∀ l ∈ body, bodyLineOK l = true) →
    parseDiffChunksLines (hline :: body) =
      [{ old_start := o, old_count := oc, new_start := n, new_count := nc,
         changes := specChangesC2 o n body }]

/-- The line records `_parse_diff_chunks` actually produces for a hunk body:
a single counter starting at the old start and advancing on every add,
delete or context line, used for ADD and DELETE records alike. -/
def cfChanges : Nat → List String → List ChunkChange
  | _, [] => []
  | ln, l :: ls =>
    if swith l "+" then
      { line_number := ln, ctype := "ADD", content := sdrop l 1 } :: cfChanges (ln + 1) ls
    else if swith l "-" then
      { line_number := ln, ctype := "DELETE", content := sdrop l 1 } :: cfChanges (ln + 1) ls
    else cfChanges (ln + 1) ls

/-- The deleted-line records `parse_diff_output` produces for a hunk body:
old start plus the count of prior delete and context lines. -/
def p7Dels : Nat → Nat → List String → List LineEntry
  | _, _, [] => []
  | o, k, l :: ls =>
    if swith l "+" then p7Dels o k ls
    else if swith l "-" then
      { line_number := o + k, content := sdrop l 1 } :: p7Dels o (k + 1) ls
    else p7Dels o (k + 1) ls

/-- The added-line records `parse_diff_output` produces for a hunk body: new
start plus the count of prior add lines only (context lines do not advance
this counter). -/
def p7Adds : Nat → Nat → List String → List LineEntry
  | _, _, [] => []
  | n, a, l :: ls =>
    if swith l "+" then
      { line_number := n + a, content := sdrop l 1 } :: p7Adds n (a + 1) ls
    else p7Adds n a ls

/-- The number of non-add lines of a hunk body (the lines that advance the
`line_offset` counter of `parse_diff_output`). -/
def countNonAdd (body : List String) : Nat :=
  (body.filter (fun l => !swith l "+")).length

/-- Claim C1 as stated, read against `_match_with_fix_commit`: for a
DELETE/MODIFY fix-commit change, a uniquely content-matched cross-diff
deleted line lands in `modified_lines`, and a change matching no deleted
line lands in `unidentified_lines` and its number never appears in
`modified_lines`. -/
def claimC1 : Prop :=
  ∀ (fp : String) (dd : DiffFileData) (cf : List FileInfo) (ffp : Option String)
    (r : MatchResult) (fd : FileInfo) (chunk : Chunk) (ch : ChunkChange),
    matchWithFixCommit fp [(fp, dd)] cf ffp = some r →
    firstFileWithPath cf (lookupPathOf fp ffp) = some fd →
    chunk ∈ fd.chunks → ch ∈ chunk.changes →
    (ch.ctype = "DELETE" ∨ ch.ctype = "MODIFY") →
    ((∃ d ∈ dd.deleted_lines, pstrip d.content = pstrip ch.content ∧
        ∀ d2 ∈ dd.deleted_lines, pstrip d2.content = pstrip ch.content → d2 = d) →
      ∀ d ∈ dd.deleted_lines, pstrip d.content = pstrip ch.content →
        d.line_number ∈ r.modified_lines) ∧
    ((∀ d ∈ dd.deleted_lines, pstrip d.content ≠ pstrip ch.content) →
      ch.line_number ∈ r.unidentified_lines ∧ ch.line_number ∉ r.modified_lines)

/-- Case-insensitive begins-with, the reading of the matching rule that
claim C7 states (no word-boundary requirement). -/
def ciPrefixOf (p s : String) : Bool := (ciStrip p.data s.data).isSome

/-- Claim C7 as stated: a commit is attributed to a key exactly when some
message line begins with the key, with hash-key, or with the bracketed key,
case-insensitively. -/
def claimC7 : Prop :=
  ∀ (key msg : String),
    scannerMatches key msg = true ↔
      ((splitNl msg).any (fun line =>
        ciPrefixOf key line || ciPrefixOf ("#" ++ key) line ||
          ciPrefixOf ("[" ++ key ++ "]") line)) = true

/-- Cross-diff data for the C1 counterexample: one deleted line at 7. -/
def c1dd : DiffFileData :=
  { deleted_lines := [{ line_number := 7, content := "y" }]
    added_lines := [], old_path := some "F.java", new_path := none, is_rename := false }

/-- Commit data for the C1 counterexample: a change at fix-side line 7 whose
content matches nothing, and a change at line 3 whose content matches the
deleted line numbered 7. -/
def c1fd : FileInfo :=
  { path := "F.java", change_type := "MODIFY", old_path := none, insertions := 0,
    deletions := 0, lines_changed := 0,
    chunks := [{ old_start := 1, old_count := 1, new_start := 1, new_count := 1,
                 changes := [{ line_number := 7, ctype := "DELETE", content := "x" },
                             { line_number := 3, ctype := "DELETE", content := "y" }] }] }

/-- Cross-diff data for the C1 witness: a unique content match at line 12. -/
def c1ddW : DiffFileData :=
  { deleted_lines := [{ line_number := 12, content := "return null;" }]
    added_lines := [], old_path := some "Foo.java", new_path := none, is_rename := false }

/-- Commit data for the C1 witness: one matching DELETE and one unmatched. -/
def c1fdW : FileInfo :=
  { path := "Foo.java", change_type := "MODIFY", old_path := none, insertions := 0,
    deletions := 0, lines_changed := 0,
    chunks := [{ old_start := 10, old_count := 2, new_start := 10, new_count := 1,
                 changes := [{ line_number := 10, ctype := "DELETE", content := "return null;" },
                             { line_number := 11, ctype := "DELETE", content := "zzz" }] }] }

/-- Cross-diff text for the C3 witness. -/
def c3DiffText : String :=
  "diff --git a/F.java b/F.java\n--- a/F.java\n+++ b/F.java\n@@ -3,2 +3,2 @@\n-old line\n+new line"

/-- Commit files for the C3 witness. -/
def c3Files : List FileInfo :=
  [{ path := "F.java", change_type := "MODIFY", old_path := none, insertions := 1,
     deletions := 1, lines_changed := 2,
     chunks := [{ old_start := 10, old_count := 2, new_start := 10, new_count := 2,
                  changes := [{ line_number := 10, ctype := "DELETE", content := "old line" }] }] }]

/-- The change entry the C3 witness scenario produces. -/
def c3Entry : MatchResult :=
  { av_filename := "F.java", modified_lines := [3], fix_filename := "F.java",
    unidentified_lines := [], is_rename := false, old_path := none, new_path := none,
    diff_command := "git diff avsha fixsha -- F.java" }

/-- The analysis result of the C4 witness: an unresolvable version. -/
def c4Res : AnalysisResult :=
  analyzeFixCommit (fun _ => none) "zookeeper" "deadbeef" "9.9.9" [] ""

/-- Repository for the C5 witness: a `v`-prefixed tag only. -/
def c5Repo : RepoRefs :=
  { tags := [("v1.2.3", "abc123")], heads := [], revParse := fun _ => none }

/-- Repository backend for the C9 scenario: the diff against the root parent
carries one file, the diff against the empty tree carries none, so the
produced record shows which diff was taken. -/
def c9Repo : RepoModel :=
  { diffOf := fun p _ =>
      if p = some "root0000" then
        [{ a_path := some "A.java", b_path := some "A.java", new_file := false,
           deleted_file := false, renamed_file := false, diffText := "@@ -1,1 +1,1 @@\n-x\n+y" }]
      else []
    statsTotal := fun _ => (1, 1, 1)
    statsFile := fun _ _ => (1, 1) }

/-- A parentless commit whose message matches the issue key. -/
def c9Root : SCommit :=
  { hexsha := "root0000", parents := [], message := "ABC-1 fix the root", author := "a",
    author_email := "e", date := "d" }

/-- A one-parent commit whose message matches the issue key. -/
def c9Child : SCommit :=
  { hexsha := "child000", parents := ["root0000"], message := "ABC-1 fix again", author := "a",
    author_email := "e", date := "d" }

/-- The record the scanner produces for `c9Child`: its file data comes from
the diff against its first parent `root0000`. -/
def c9Info : CommitInfo :=
  { sha := "child000", full_sha := "child000", num_parents := 1,
    parent_full_sha := "root0000", author := "a", author_email := "e", date := "d",
    message := "ABC-1 fix again", branch := "m", github_url := "u/commit/child000",
    files_changed :=
      { total_files := 1, total_insertions := 1, total_deletions := 1,
        files := [{ path := "A.java", change_type := "MODIFY", old_path := none,
                    insertions := 1, deletions := 1, lines_changed := 2,
                    chunks := [{ old_start := 1, old_count := 1, new_start := 1, new_count := 1,
                                 changes := [{ line_number := 1, ctype := "DELETE", content := "x" },
                                             { line_number := 2, ctype := "ADD", content := "y" }] }] }] } }

/-- A merge commit whose message matches the issue key, for the C8 witness. -/
def c8Merge : SCommit :=
  { hexsha := "merge000", parents := ["p1", "p2"], message := "ABC-1 merged", author := "a",
    author_email := "e", date := "d" }

/-!
Helper lemmas about the embedding primitives.
-/

lemma stripLit_eq_some (ps : List Char) :
    ∀ cs rest, stripLit ps cs = some rest ↔ cs = ps ++ rest := by
  induction ps with
  | nil => intro cs rest; simp [stripLit]
  | cons p ps ih =>
    intro cs rest
    cases cs with
    | nil => simp [stripLit]
    | cons c cs2 =>
      by_cases h : p = c
      · subst h
        rw [show stripLit (p :: ps) (p :: cs2) = stripLit ps cs2 by simp [stripLit]]
        rw [ih]
        simp
      · rw [show stripLit (p :: ps) (c :: cs2) = none by simp [stripLit, h]]
        simp [Ne.symm h]

lemma swith_iff (s p : String) : swith s p = true ↔ ∃ rest, s.data = p.data ++ rest := by
  unfold swith
  constructor
  · intro h
    cases hs : stripLit p.data s.data with
    | none => rw [hs] at h; cases h
    | some r => exact ⟨r, (stripLit_eq_some p.data s.data r).mp hs⟩
  · rintro ⟨rest, hr⟩
    rw [(stripLit_eq_some p.data s.data rest).mpr hr]
    rfl

lemma swith_head_ne {s p : String} {c d : Char} {cr pr : List Char}
    (hs : s.data = c :: cr) (hp : p.data = d :: pr) (hne : c ≠ d) : swith s p = false := by
  cases h : swith s p
  · rfl
  · exfalso
    obtain ⟨rest, hr⟩ := (swith_iff s p).mp h
    rw [hs, hp, List.cons_append] at hr
    injection hr with h1 _
    exact hne h1

lemma swith_of_data {s p : String} {rest : List Char} (h : s.data = p.data ++ rest) :
    swith s p = true :=
  (swith_iff s p).mpr ⟨rest, h⟩

lemma mem_setAdd {s : List Nat} {m n : Nat} : m ∈ setAdd s n ↔ m ∈ s ∨ m = n := by
  unfold setAdd
  by_cases h : n ∈ s
  · rw [if_pos h]
    constructor
    · exact Or.inl
    · rintro (hm | rfl)
      · exact hm
      · exact h
  · rw [if_neg h]
    simp

lemma mem_insertSorted {m n : Nat} : ∀ l, m ∈ insertSorted n l ↔ m = n ∨ m ∈ l := by
  intro l
  induction l with
  | nil => simp [insertSorted]
  | cons x xs ih =>
    unfold insertSorted
    by_cases h : n ≤ x
    · rw [if_pos h]; simp
    · rw [if_neg h]
      simp only [List.mem_cons, ih]
      tauto

lemma mem_sortNat {m : Nat} : ∀ l, m ∈ sortNat l ↔ m ∈ l := by
  intro l
  induction l with
  | nil => simp [sortNat]
  | cons x xs ih =>
    unfold sortNat at ih ⊢
    rw [List.foldr_cons, mem_insertSorted, ih]
    simp [eq_comm]

lemma mem_dictInsert {A : Type} {d : List (String × A)} {k : String} {v : A} {kv : String × A}
    (h : kv ∈ dictInsert d k v) : kv ∈ d ∨ kv = (k, v) := by
  unfold dictInsert at h
  by_cases hc : d.any (fun kv => kv.1 == k) = true
  · rw [if_pos hc] at h
    obtain ⟨x, hx, hxe⟩ := List.mem_map.mp h
    by_cases hk : (x.1 == k) = true
    · rw [if_pos hk] at hxe; exact Or.inr hxe.symm
    · rw [if_neg hk] at hxe; exact Or.inl (hxe ▸ hx)
  · rw [if_neg hc] at h
    rcases List.mem_append.mp h with h1 | h1
    · exact Or.inl h1
    · exact Or.inr (List.mem_singleton.mp h1)

lemma dictLookup_mem {A : Type} {d : List (String × A)} {k : String} {v : A}
    (h : dictLookup d k = some v) : (k, v) ∈ d := by
  unfold dictLookup at h
  cases hf : d.find? (fun kv => kv.1 == k) with
  | none => rw [hf] at h; cases h
  | some kv =>
    rw [hf] at h
    have h1 := List.find?_some hf
    have h2 : kv ∈ d := List.mem_of_find?_eq_some hf
    have h3 : kv.2 = v := by simpa using h
    have h4 : kv.1 = k := by simpa using h1
    have : kv = (k, v) := Prod.ext h4 h3
    exact this ▸ h2

lemma dictInsert_nil {A : Type} (k : String) (v : A) : dictInsert [] k v = [(k, v)] := by
  simp [dictInsert]
lemma p7Step_results (st : P7State) (l : String) :
    (p7Step st l).results = st.results ∨ (p7Step st l).results = p7Save st := by
  unfold p7Step
  by_cases h1 : swith l "diff --git" = true
  · rw [if_pos h1]; exact Or.inr rfl
  rw [if_neg h1]
  by_cases h2 : swith l "rename from " = true
  · rw [if_pos h2]; exact Or.inl rfl
  rw [if_neg h2]
  by_cases h3 : swith l "rename to " = true
  · rw [if_pos h3]; exact Or.inl rfl
  rw [if_neg h3]
  by_cases h4 : swith l "--- a/" = true
  · rw [if_pos h4]; left; split <;> rfl
  rw [if_neg h4]
  by_cases h5 : swith l "--- /dev/null" = true
  · rw [if_pos h5]; left; split <;> rfl
  rw [if_neg h5]
  by_cases h6 : swith l "+++ b/" = true
  · rw [if_pos h6]; left; split <;> rfl
  rw [if_neg h6]
  by_cases h7 : swith l "@@" = true
  · rw [if_pos h7]; left
    rcases p7HunkHeader l with _ | ⟨o, n⟩ <;> rfl
  rw [if_neg h7]
  by_cases h8 : (swith l "-" && !swith l "---") = true
  · rw [if_pos h8]; left; split <;> rfl
  rw [if_neg h8]
  by_cases h9 : (swith l "+" && !swith l "+++") = true
  · rw [if_pos h9]; left; split <;> rfl
  rw [if_neg h9]
  by_cases h10 : swith l " " = true
  · rw [if_pos h10]; exact Or.inl rfl
  rw [if_neg h10]
  exact Or.inl rfl

lemma p7Save_entries {st : P7State}
    (h : ∀ kv ∈ st.results, (!kv.2.deleted_lines.isEmpty || kv.2.is_rename) = true) :
    ∀ kv ∈ p7Save st, (!kv.2.deleted_lines.isEmpty || kv.2.is_rename) = true := by
  intro kv hkv
  unfold p7Save at hkv
  by_cases hc : (truthy st.current_file && (!st.deleted_lines.isEmpty || st.is_rename)) = true
  · rw [if_pos hc] at hkv
    rcases mem_dictInsert hkv with hin | heq
    · exact h kv hin
    · subst heq
      exact (Bool.and_eq_true ..).mp hc |>.2
  · rw [if_neg hc] at hkv
    exact h kv hkv

lemma p7Step_entries {st : P7State} {l : String}
    (h : ∀ kv ∈ st.results, (!kv.2.deleted_lines.isEmpty || kv.2.is_rename) = true) :
    ∀ kv ∈ (p7Step st l).results, (!kv.2.deleted_lines.isEmpty || kv.2.is_rename) = true := by
  rcases p7Step_results st l with he | he
  · rw [he]; exact h
  · rw [he]; exact p7Save_entries h

lemma foldl_p7Step_entries :
    ∀ (lines : List String) (st : P7State),
      (∀ kv ∈ st.results, (!kv.2.deleted_lines.isEmpty || kv.2.is_rename) = true) →
      ∀ kv ∈ (lines.foldl p7Step st).results,
        (!kv.2.deleted_lines.isEmpty || kv.2.is_rename) = true := by
  intro lines
  induction lines with
  | nil => intro st h; exact h
  | cons l ls ih =>
    intro st h
    exact ih (p7Step st l) (p7Step_entries h)

/-- Claim C10: every entry of a parsed cross-diff records at least one
deleted line or is marked as a rename; a pure-addition file yields no entry
at all. -/
theorem c10_entries_deleted_or_rename (text : String) :
    (parseDiffOutput text).all
      (fun kv => !kv.2.deleted_lines.isEmpty || kv.2.is_rename) = true := by
  rw [List.all_eq_true]
  unfold parseDiffOutput parseDiffOutputLines
  exact p7Save_entries (foldl_p7Step_entries (splitNl text) p7Init (by intro kv h; cases h))
/-- Claim C4: an unresolvable affected version yields a result with a
non-empty error and no changes, and processing continues with the remaining
affected versions of the issue, each handled independently. -/
theorem c4_unresolved_version (resolve : String → Option String) (checkout : String → Bool)
    (diffOf : String → String → String) (project : String) (commits : List CommitInput)
    (v : String) (rest : List String) (h : resolve v = none) :
    (∀ r ∈ perVersionResults resolve checkout diffOf project commits v,
        (∃ s, r.error = some s ∧ s ≠ "") ∧ r.changes = []) ∧
    processSingleIssue resolve checkout diffOf project commits (v :: rest) =
      perVersionResults resolve checkout diffOf project commits v ++
        processSingleIssue resolve checkout diffOf project commits rest := by
  constructor
  · intro r hr
    obtain ⟨c, hc, hce⟩ := List.mem_map.mp hr
    rw [← hce]
    unfold analyzeFixCommit
    rw [h]
    refine ⟨⟨"Could not resolve version " ++ v ++ " to SHA", rfl, ?_⟩, rfl⟩
    intro he
    have hd := congrArg String.data he
    rw [String.data_append, String.data_append] at hd
    have : ("Could not resolve version ").data = 'C' :: "ould not resolve version ".data := rfl
    rw [this] at hd
    cases hd
  · unfold processSingleIssue
    rw [List.flatMap_cons]
/-- Witness for C4 at a concrete unresolvable version. -/
theorem c4_witness :
    (∃ s, c4Res.error = some s ∧ s ≠ "") ∧ c4Res.changes = [] :=
  (c4_unresolved_version (fun _ => none) (fun _ => true) (fun _ _ => "") "zookeeper"
    [{ full_sha := "deadbeef", files := [] }] "9.9.9" [] rfl).1 c4Res (by decide)

/-- Claim C5: version resolution tries an exact tag, then each prefixed tag
in order, then branches, then generic ref resolution, first hit winning; on
the generic fallback prefix list a repository with tag `v1.2.3` and no tag
`1.2.3` resolves `1.2.3` to the commit of `v1.2.3`. -/
theorem c5_resolution_order (r : RepoRefs) (pfxs : List String) (v sha url : String) :
    (lookupName r.tags v = some sha → resolveVersion r pfxs v = some sha) ∧
    (lookupName r.tags v = none → firstPfxHit r.tags pfxs v = some sha →
      resolveVersion r pfxs v = some sha) ∧
    (lookupName r.tags v = none → firstPfxHit r.tags pfxs v = none →
      (r.heads.map (fun kv => kv.1)).contains v = true →
      resolveVersion r pfxs v = lookupName r.heads v) ∧
    (lookupName r.tags v = none → firstPfxHit r.tags pfxs v = none →
      (r.heads.map (fun kv => kv.1)).contains v = false →
      resolveVersion r pfxs v = r.revParse v) ∧
    (containsSub "zookeeper".data (url.data.map Char.toLower) = false →
      containsSub "hbase".data (url.data.map Char.toLower) = false →
      lookupName r.tags v = none → lookupName r.tags ("v" ++ v) = some sha →
      resolveVersion r (detectTagPrefixes url) v = some sha) := by
  refine ⟨?_, ?_, ?_, ?_, ?_⟩
  · intro h1
    unfold resolveVersion
    rw [h1]
  · intro h1 h2
    unfold resolveVersion
    rw [h1, h2]
  · intro h1 h2 h3
    unfold resolveVersion
    rw [h1, h2, h3]
    simp
  · intro h1 h2 h3
    unfold resolveVersion
    rw [h1, h2, h3]
    simp
  · intro hz hb h1 h2
    have hp : detectTagPrefixes url = ["v", "V", "release-", "rel/", ""] := by
      unfold detectTagPrefixes
      simp only []
      rw [hz, hb]
      simp
    rw [hp]
    unfold resolveVersion
    rw [h1]
    rw [show firstPfxHit r.tags ["v", "V", "release-", "rel/", ""] v = some sha by
      unfold firstPfxHit
      rw [h2]]

/-- Witness for C5: the concrete `v`-prefix scenario. -/
theorem c5_witness :
    resolveVersion c5Repo (detectTagPrefixes "https://github.com/apache/kafka.git") "1.2.3" =
      some "abc123" :=
  (c5_resolution_order c5Repo [] "1.2.3" "abc123" "https://github.com/apache/kafka.git").2.2.2.2
    (by decide) (by decide) (by decide) (by decide)
/-- Claim C6 failing input: `_parse_diff_chunks` does not discard the chunk
under a malformed hunk header. The preceding chunk has already been appended
when the header fails to parse, `current_chunk` keeps pointing at it, the
change lines of the malformed section are appended into it, and it is appended a
second time, so the output holds two copies of a chunk that also carries the
change line of the malformed section. -/
theorem c6_malformed_hunk_not_skipped :
    parseDiffChunks "@@ -1,1 +1,1 @@\n-a\n@@ bogus @@\n-b\n@@ -5,1 +5,1 @@\n-c" =
      [{ old_start := 1, old_count := 1, new_start := 1, new_count := 1,
         changes := [{ line_number := 1, ctype := "DELETE", content := "a" },
                     { line_number := 2, ctype := "DELETE", content := "b" }] },
       { old_start := 1, old_count := 1, new_start := 1, new_count := 1,
         changes := [{ line_number := 1, ctype := "DELETE", content := "a" },
                     { line_number := 2, ctype := "DELETE", content := "b" }] },
       { old_start := 5, old_count := 1, new_start := 5, new_count := 1,
         changes := [{ line_number := 5, ctype := "DELETE", content := "c" }] }] := by
  decide
lemma matchStep_fst_mono {deleted : List LineEntry} {acc : List Nat × List Nat}
    {ch : ChunkChange} {x : Nat} (hx : x ∈ acc.1) : x ∈ (matchStep deleted acc ch).1 := by
  unfold matchStep
  by_cases hc : (ch.ctype == "DELETE" || ch.ctype == "MODIFY") = true
  · rw [if_pos hc]
    cases hm : firstContentMatch deleted ch with
    | none => exact hx
    | some d => exact mem_setAdd.mpr (Or.inl hx)
  · rw [if_neg hc]; exact hx

lemma matchStep_snd_mono {deleted : List LineEntry} {acc : List Nat × List Nat}
    {ch : ChunkChange} {x : Nat} (hx : x ∈ acc.2) : x ∈ (matchStep deleted acc ch).2 := by
  unfold matchStep
  by_cases hc : (ch.ctype == "DELETE" || ch.ctype == "MODIFY") = true
  · rw [if_pos hc]
    cases hm : firstContentMatch deleted ch with
    | none => exact mem_setAdd.mpr (Or.inl hx)
    | some d => exact hx
  · rw [if_neg hc]; exact hx

lemma foldl_matchStep_fst_mono {deleted : List LineEntry} {x : Nat} :
    ∀ (l : List ChunkChange) (acc : List Nat × List Nat), x ∈ acc.1 →
      x ∈ (l.foldl (matchStep deleted) acc).1 := by
  intro l
  induction l with
  | nil => intro acc h; exact h
  | cons c cs ih => intro acc h; exact ih (matchStep deleted acc c) (matchStep_fst_mono h)

lemma foldl_matchStep_snd_mono {deleted : List LineEntry} {x : Nat} :
    ∀ (l : List ChunkChange) (acc : List Nat × List Nat), x ∈ acc.2 →
      x ∈ (l.foldl (matchStep deleted) acc).2 := by
  intro l
  induction l with
  | nil => intro acc h; exact h
  | cons c cs ih => intro acc h; exact ih (matchStep deleted acc c) (matchStep_snd_mono h)

lemma foldl_matchStep_hit {deleted : List LineEntry} {d : LineEntry} {ch : ChunkChange}
    (l : List ChunkChange) (acc : List Nat × List Nat) (hmem : ch ∈ l)
    (hty : ch.ctype = "DELETE" ∨ ch.ctype = "MODIFY")
    (hm : firstContentMatch deleted ch = some d) :
    d.line_number ∈ (l.foldl (matchStep deleted) acc).1 := by
  obtain ⟨l1, l2, rfl⟩ := List.append_of_mem hmem
  rw [List.foldl_append, List.foldl_cons]
  apply foldl_matchStep_fst_mono
  unfold matchStep
  have hc : (ch.ctype == "DELETE" || ch.ctype == "MODIFY") = true := by
    rcases hty with h | h <;> simp [h]
  rw [if_pos hc, hm]
  exact mem_setAdd.mpr (Or.inr rfl)

lemma foldl_matchStep_miss {deleted : List LineEntry} {ch : ChunkChange}
    (l : List ChunkChange) (acc : List Nat × List Nat) (hmem : ch ∈ l)
    (hty : ch.ctype = "DELETE" ∨ ch.ctype = "MODIFY")
    (hm : firstContentMatch deleted ch = none) :
    ch.line_number ∈ (l.foldl (matchStep deleted) acc).2 := by
  obtain ⟨l1, l2, rfl⟩ := List.append_of_mem hmem
  rw [List.foldl_append, List.foldl_cons]
  apply foldl_matchStep_snd_mono
  unfold matchStep
  have hc : (ch.ctype == "DELETE" || ch.ctype == "MODIFY") = true := by
    rcases hty with h | h <;> simp [h]
  rw [if_pos hc, hm]
  exact mem_setAdd.mpr (Or.inr rfl)

lemma matchWithFixCommit_inv {fp : String} {dd : DiffFileData} {cf : List FileInfo}
    {ffp : Option String} {r : MatchResult}
    (h : matchWithFixCommit fp [(fp, dd)] cf ffp = some r) :
    ∃ fc, firstFileWithPath cf (lookupPathOf fp ffp) = some fc ∧
      r.modified_lines = sortNat (collectMatches dd.deleted_lines fc.chunks).1 ∧
      r.unidentified_lines = sortNat (collectMatches dd.deleted_lines fc.chunks).2 ∧
      r.fix_filename = lookupPathOf fp ffp := by
  unfold matchWithFixCommit at h
  rw [show dictLookup [(fp, dd)] fp = some dd from by simp [dictLookup]] at h
  dsimp only [] at h
  split at h
  · cases h
  · split at h
    · cases h
    · rename_i fc hfc
      refine ⟨fc, hfc, ?_, ?_, ?_⟩ <;> (cases h; rfl)
/-- Claim C1, amended: for a DELETE/MODIFY change of the fix commit, a
uniquely content-matched cross-diff deleted line contributes its line number
to `modified_lines`, and a change matching no deleted line contributes its
fix-side line number to `unidentified_lines` (that number may still appear
in `modified_lines` through a different change whose matched deleted line
carries the same number). -/
theorem c1_match_and_unidentified (fp : String) (dd : DiffFileData) (cf : List FileInfo)
    (ffp : Option String) (r : MatchResult) (fd : FileInfo) (chunk : Chunk) (ch : ChunkChange)
    (h : matchWithFixCommit fp [(fp, dd)] cf ffp = some r)
    (hfd : firstFileWithPath cf (lookupPathOf fp ffp) = some fd)
    (hchunk : chunk ∈ fd.chunks) (hch : ch ∈ chunk.changes)
    (hty : ch.ctype = "DELETE" ∨ ch.ctype = "MODIFY") :
    ((∃ d ∈ dd.deleted_lines, pstrip d.content = pstrip ch.content ∧
        ∀ d2 ∈ dd.deleted_lines, pstrip d2.content = pstrip ch.content → d2 = d) →
      ∀ d ∈ dd.deleted_lines, pstrip d.content = pstrip ch.content →
        d.line_number ∈ r.modified_lines) ∧
    ((∀ d ∈ dd.deleted_lines, pstrip d.content ≠ pstrip ch.content) →
      ch.line_number ∈ r.unidentified_lines) := by
  obtain ⟨fc, hfc, hmod, hunid, _⟩ := matchWithFixCommit_inv h
  rw [hfd] at hfc
  cases hfc
  have hflat : ch ∈ fd.chunks.flatMap (fun c => c.changes) :=
    List.mem_flatMap.mpr ⟨chunk, hchunk, hch⟩
  constructor
  · rintro ⟨d0, hd0, hd0e, hd0u⟩ d hd hde
    have : d = d0 := hd0u d hd hde
    subst this
    have hsome : firstContentMatch dd.deleted_lines ch = some d := by
      cases hm : firstContentMatch dd.deleted_lines ch with
      | none =>
        exfalso
        have := List.find?_eq_none.mp hm d hd
        simp [hde] at this
      | some d1 =>
        have h1 := List.find?_some hm
        have h2 := List.mem_of_find?_eq_some hm
        have h1e : pstrip ch.content = pstrip d1.content := by simpa using h1
        have : d1 = d := hd0u d1 h2 h1e.symm
        rw [this]
    rw [hmod, mem_sortNat]
    exact foldl_matchStep_hit _ _ hflat hty hsome
  · intro hnone
    have hm : firstContentMatch dd.deleted_lines ch = none := by
      apply List.find?_eq_none.mpr
      intro d hd
      simp only [beq_iff_eq]
      exact fun he => (hnone d hd) he.symm
    rw [hunid, mem_sortNat]
    exact foldl_matchStep_miss _ _ hflat hty hm

/-- Counterexample to claim C1 as stated: the change at fix-side line 7
matches no deleted line and is recorded as unidentified, yet 7 also appears
in `modified_lines`, placed there by the other change, whose matched deleted
line happens to carry number 7. -/
theorem c1_counterexample : ¬ claimC1 := by
  intro h
  have h2 := h "F.java" c1dd [c1fd] none
    { av_filename := "F.java"
      modified_lines := [7]
      fix_filename := "F.java"
      unidentified_lines := [7]
      is_rename := false
      old_path := none
      new_path := none
      diff_command := "" }
    c1fd
    { old_start := 1
      old_count := 1
      new_start := 1
      new_count := 1
      changes := [{ line_number := 7, ctype := "DELETE", content := "x" },
                  { line_number := 3, ctype := "DELETE", content := "y" }] }
    { line_number := 7, ctype := "DELETE", content := "x" }
    (by decide) (by decide) (by decide) (by decide) (by decide)
  have h3 := (h2.2 (by decide)).2
  exact h3 (by decide)

/-- Witness for the amended C1 at a concrete unique match and a concrete
unmatched change. -/
theorem c1_witness :
    (12 : Nat) ∈ ({ av_filename := "Foo.java"
                    modified_lines := [12]
                    fix_filename := "Foo.java"
                    unidentified_lines := [11]
                    is_rename := false
                    old_path := none
                    new_path := none
                    diff_command := "" } : MatchResult).modified_lines :=
  (c1_match_and_unidentified "Foo.java" c1ddW [c1fdW] none _ c1fdW
      { old_start := 10
        old_count := 2
        new_start := 10
        new_count := 1
        changes := [{ line_number := 10, ctype := "DELETE", content := "return null;" },
                    { line_number := 11, ctype := "DELETE", content := "zzz" }] }
      { line_number := 10, ctype := "DELETE", content := "return null;" }
      (by decide) (by decide) (by decide) (by decide) (by decide)).1
    (by decide)
    { line_number := 12, content := "return null;" } (by decide) (by decide)
lemma ciStrip_iff : ∀ (ks cs rest : List Char),
    ciStrip ks cs = some rest ↔
      ∃ pre, cs = pre ++ rest ∧ pre.map Char.toLower = ks.map Char.toLower := by
  intro ks
  induction ks with
  | nil =>
    intro cs rest
    simp only [ciStrip, Option.some.injEq, List.map_nil]
    constructor
    · rintro rfl; exact ⟨[], rfl, by simp⟩
    · rintro ⟨pre, hcs, hm⟩
      have : pre = [] := by simpa using List.map_eq_nil_iff.mp hm
      subst this; simpa using hcs
  | cons k ks ih =>
    intro cs rest
    cases cs with
    | nil =>
      simp only [ciStrip]
      constructor
      · intro h; cases h
      · rintro ⟨pre, hcs, hm⟩
        cases pre with
        | nil => simp at hm
        | cons p ps => cases hcs
    | cons c cs2 =>
      simp only [ciStrip]
      by_cases hk : (k.toLower == c.toLower) = true
      · rw [if_pos hk]
        have hkl : k.toLower = c.toLower := beq_iff_eq.mp hk
        rw [ih]
        constructor
        · rintro ⟨pre2, hcs, hm⟩
          exact ⟨c :: pre2, by rw [hcs]; rfl, by simp [hm, hkl]⟩
        · rintro ⟨pre, hcs, hm⟩
          cases pre with
          | nil => simp at hm
          | cons p ps =>
            rw [List.cons_append] at hcs
            injection hcs with h1 h2
            subst h1
            simp only [List.map_cons, List.cons.injEq] at hm
            exact ⟨ps, h2, hm.2⟩
      · rw [if_neg hk]
        constructor
        · intro h; cases h
        · rintro ⟨pre, hcs, hm⟩
          cases pre with
          | nil => simp at hm
          | cons p ps =>
            rw [List.cons_append] at hcs
            injection hcs with h1 h2
            subst h1
            simp only [List.map_cons, List.cons.injEq] at hm
            exact (hk (beq_iff_eq.mpr hm.1.symm)).elim

lemma lineMatchPlain_iff (key line : List Char) :
    lineMatchPlain key line = true ↔
      ∃ pre rest, line = pre ++ rest ∧ pre.map Char.toLower = key.map Char.toLower ∧
        boundaryAfter key.getLast? rest = true := by
  unfold lineMatchPlain
  cases hm : ciStrip key line with
  | none =>
    constructor
    · intro h; cases h
    · rintro ⟨pre, rest, hl, hpre, hb⟩
      have : ciStrip key line = some rest := (ciStrip_iff key line rest).mpr ⟨pre, hl, hpre⟩
      rw [hm] at this; cases this
  | some rest =>
    obtain ⟨pre, hl, hpre⟩ := (ciStrip_iff key line rest).mp hm
    constructor
    · intro hb; exact ⟨pre, rest, hl, hpre, hb⟩
    · rintro ⟨pre2, rest2, hl2, hpre2, hb2⟩
      have : ciStrip key line = some rest2 := (ciStrip_iff key line rest2).mpr ⟨pre2, hl2, hpre2⟩
      rw [hm] at this
      injection this with h1
      rw [h1]
      exact hb2

lemma lineMatchHash_iff (key line : List Char) :
    lineMatchHash key line = true ↔
      ∃ pre rest, line = '#' :: (pre ++ rest) ∧ pre.map Char.toLower = key.map Char.toLower ∧
        boundaryAfter key.getLast? rest = true := by
  cases line with
  | nil =>
    unfold lineMatchHash
    simp
  | cons c ls =>
    by_cases hc : c = '#'
    · subst hc
      rw [show lineMatchHash key ('#' :: ls) = lineMatchPlain key ls from rfl]
      rw [lineMatchPlain_iff]
      constructor
      · rintro ⟨pre, rest, hl, hpre, hb⟩; exact ⟨pre, rest, by rw [hl], hpre, hb⟩
      · rintro ⟨pre, rest, hl, hpre, hb⟩
        injection hl with _ h2
        exact ⟨pre, rest, h2, hpre, hb⟩
    · have : lineMatchHash key (c :: ls) = false := by
        unfold lineMatchHash
        split
        · rename_i heq
          injection heq with h1 h2
          exact absurd h1 hc
        · rfl
      rw [this]
      constructor
      · intro h; cases h
      · rintro ⟨pre, rest, hl, hpre, hb⟩
        injection hl with h1 _
        exact (hc h1).elim

lemma lineMatchBracket_iff (key line : List Char) :
    lineMatchBracket key line = true ↔
      ∃ pre rest, line = '[' :: (pre ++ ']' :: rest) ∧
        pre.map Char.toLower = key.map Char.toLower := by
  cases line with
  | nil => unfold lineMatchBracket; simp
  | cons c ls =>
    by_cases hc : c = '['
    · subst hc
      rw [show lineMatchBracket key ('[' :: ls) =
            (match ciStrip key ls with
             | some (']' :: _) => true
             | _ => false) from rfl]
      cases hm : ciStrip key ls with
      | none =>
        constructor
        · intro h; cases h
        · rintro ⟨pre, rest, hl, hpre⟩
          injection hl with _ h2
          have : ciStrip key ls = some (']' :: rest) :=
            (ciStrip_iff key ls (']' :: rest)).mpr ⟨pre, h2, hpre⟩
          rw [hm] at this; cases this
      | some r =>
        obtain ⟨pre, hl, hpre⟩ := (ciStrip_iff key ls r).mp hm
        cases r with
        | nil =>
          constructor
          · intro h; cases h
          · rintro ⟨pre2, rest2, hl2, hpre2⟩
            injection hl2 with _ h2
            have : ciStrip key ls = some (']' :: rest2) :=
              (ciStrip_iff key ls (']' :: rest2)).mpr ⟨pre2, h2, hpre2⟩
            rw [hm] at this; cases this
        | cons r0 rs =>
          by_cases hr : r0 = ']'
          · subst hr
            constructor
            · intro _; exact ⟨pre, rs, by rw [hl], hpre⟩
            · intro _; rfl
          · constructor
            · intro h
              exfalso
              revert h
              simp [hr]
            · rintro ⟨pre2, rest2, hl2, hpre2⟩
              injection hl2 with _ h2
              have : ciStrip key ls = some (']' :: rest2) :=
                (ciStrip_iff key ls (']' :: rest2)).mpr ⟨pre2, h2, hpre2⟩
              rw [hm] at this
              injection this with h3
              injection h3 with h4 _
              exact absurd h4 hr
    · have : lineMatchBracket key (c :: ls) = false := by
        unfold lineMatchBracket
        split
        · rename_i heq
          injection heq with h1 h2
          exact absurd h1 hc
        · rfl
      rw [this]
      constructor
      · intro h; cases h
      · rintro ⟨pre, rest, hl, hpre⟩
        injection hl with h1 _
        exact (hc h1).elim
/-- Claim C7, amended: a commit message matches a key exactly when some line
begins with the key (case-insensitively) followed by a word boundary, or
with hash and the key followed by a word boundary, or with the key enclosed
in brackets; a key occurrence that continues into further word characters
(such as `ABC-12` for key `ABC-1`) does not match. -/
theorem c7_scanner_matches_iff (key msg : String) :
    scannerMatches key msg = true ↔
      ∃ line ∈ splitNl msg,
        ((∃ pre rest, line.data = pre ++ rest ∧
            pre.map Char.toLower = key.data.map Char.toLower ∧
            boundaryAfter key.data.getLast? rest = true) ∨
         (∃ pre rest, line.data = '#' :: (pre ++ rest) ∧
            pre.map Char.toLower = key.data.map Char.toLower ∧
            boundaryAfter key.data.getLast? rest = true) ∨
         (∃ pre rest, line.data = '[' :: (pre ++ ']' :: rest) ∧
            pre.map Char.toLower = key.data.map Char.toLower)) := by
  unfold scannerMatches
  rw [List.any_eq_true]
  refine exists_congr fun line => and_congr_right fun _ => ?_
  rw [Bool.or_eq_true, Bool.or_eq_true, or_assoc]
  exact or_congr (lineMatchPlain_iff key.data line.data)
    (or_congr (lineMatchHash_iff key.data line.data) (lineMatchBracket_iff key.data line.data))

/-- Counterexample to claim C7 as stated: for key `ABC-1` the message line
`ABC-12 fix` begins with the key case-insensitively, so the claimed reading
attributes the commit, but the scanner patterns require a word boundary
after the key and do not match. -/
theorem c7_counterexample : ¬ claimC7 := by
  intro h
  have h2 := (h "ABC-1" "ABC-12 fix").mpr (by decide)
  exact absurd h2 (by decide)
lemma bodyLineOK_fields {l : String} (h : bodyLineOK l = true) :
    swith l "+++" = false ∧ swith l "---" = false ∧ swith l "@@" = false ∧
    swith l "diff --git" = false ∧ swith l "rename from " = false ∧
    swith l "rename to " = false ∧ swith l "--- a/" = false ∧
    swith l "--- /dev/null" = false ∧ swith l "+++ b/" = false := by
  unfold bodyLineOK at h
  simp only [Bool.and_eq_true, Bool.not_eq_true'] at h
  exact ⟨h.1.1.1.1.1.1.1.1.2, h.1.1.1.1.1.1.1.2, h.1.1.1.1.1.1.2, h.1.1.1.1.1.2,
    h.1.1.1.1.2, h.1.1.1.2, h.1.1.2, h.1.2, h.2⟩

lemma bodyLineOK_head {l : String} (h : bodyLineOK l = true) :
    (∃ r, l.data = '+' :: r) ∨ (∃ r, l.data = '-' :: r) ∨ (∃ r, l.data = ' ' :: r) := by
  unfold bodyLineOK at h
  simp only [Bool.and_eq_true, Bool.not_eq_true', Bool.or_eq_true] at h
  rcases h.1.1.1.1.1.1.1.1.1 with (hp | hp) | hp
  · obtain ⟨rest, hr⟩ := (swith_iff l "+").mp hp
    exact Or.inl ⟨rest, hr⟩
  · obtain ⟨rest, hr⟩ := (swith_iff l "-").mp hp
    exact Or.inr (Or.inl ⟨rest, hr⟩)
  · obtain ⟨rest, hr⟩ := (swith_iff l " ").mp hp
    exact Or.inr (Or.inr ⟨rest, hr⟩)
lemma p7Step_plus {st : P7State} {l : String} {r : List Char}
    (h : bodyLineOK l = true) (hd : l.data = '+' :: r) :
    p7Step st l =
      if truthy st.current_file then
        { st with added_lines := st.added_lines ++
            [{ line_number := st.current_new_start + st.added_lines.length, content := sdrop l 1 }] }
      else st := by
  obtain ⟨h1, h2, h3, h4, h5, h6, h7, h8, h9⟩ := bodyLineOK_fields h
  have hplus : swith l "+" = true := swith_of_data (p := "+") (by rw [hd]; rfl)
  have hminus : swith l "-" = false := swith_head_ne hd rfl (by decide)
  unfold p7Step
  rw [h4, h5, h6, h7, h8, h9, h3, hminus, hplus, h1]
  by_cases hc : truthy st.current_file <;> simp [hc]

lemma p7Step_minus {st : P7State} {l : String} {r : List Char}
    (h : bodyLineOK l = true) (hd : l.data = '-' :: r) :
    p7Step st l =
      if truthy st.current_file then
        { st with
          deleted_lines := st.deleted_lines ++
            [{ line_number := st.current_old_start + st.line_offset, content := sdrop l 1 }]
          line_offset := st.line_offset + 1 }
      else { st with line_offset := st.line_offset + 1 } := by
  obtain ⟨h1, h2, h3, h4, h5, h6, h7, h8, h9⟩ := bodyLineOK_fields h
  have hminus : swith l "-" = true := swith_of_data (p := "-") (by rw [hd]; rfl)
  unfold p7Step
  rw [h4, h5, h6, h7, h8, h9, h3, hminus, h2]
  by_cases hc : truthy st.current_file <;> simp [hc]

lemma p7Step_ctx {st : P7State} {l : String} {r : List Char}
    (h : bodyLineOK l = true) (hd : l.data = ' ' :: r) :
    p7Step st l = { st with line_offset := st.line_offset + 1 } := by
  obtain ⟨h1, h2, h3, h4, h5, h6, h7, h8, h9⟩ := bodyLineOK_fields h
  have hsp : swith l " " = true := swith_of_data (p := " ") (by rw [hd]; rfl)
  have hminus : swith l "-" = false := swith_head_ne hd rfl (by decide)
  have hplus : swith l "+" = false := swith_head_ne hd rfl (by decide)
  unfold p7Step
  rw [h4, h5, h6, h7, h8, h9, h3, hminus, hplus, hsp]
  simp

lemma cfStep_plus {st : CFState} {c : Chunk} {k : Nat} {l : String} {r : List Char}
    (h : bodyLineOK l = true) (hd : l.data = '+' :: r) (hcur : st.cur = some (c, k)) :
    cfStep st l =
      { st with
        cur := some ({ c with changes := c.changes ++
          [{ line_number := st.line_no, ctype := "ADD", content := sdrop l 1 }] }, k)
        line_no := st.line_no + 1 } := by
  obtain ⟨h1, h2, h3, h4, h5, h6, h7, h8, h9⟩ := bodyLineOK_fields h
  have hplus : swith l "+" = true := swith_of_data (p := "+") (by rw [hd]; rfl)
  unfold cfStep
  rw [h3, hcur, hplus]
  simp

lemma cfStep_minus {st : CFState} {c : Chunk} {k : Nat} {l : String} {r : List Char}
    (h : bodyLineOK l = true) (hd : l.data = '-' :: r) (hcur : st.cur = some (c, k)) :
    cfStep st l =
      { st with
        cur := some ({ c with changes := c.changes ++
          [{ line_number := st.line_no, ctype := "DELETE", content := sdrop l 1 }] }, k)
        line_no := st.line_no + 1 } := by
  obtain ⟨h1, h2, h3, h4, h5, h6, h7, h8, h9⟩ := bodyLineOK_fields h
  have hminus : swith l "-" = true := swith_of_data (p := "-") (by rw [hd]; rfl)
  have hplus : swith l "+" = false := swith_head_ne hd rfl (by decide)
  unfold cfStep
  rw [h3, hcur, hplus, hminus]
  simp

lemma cfStep_ctx {st : CFState} {c : Chunk} {k : Nat} {l : String} {r : List Char}
    (h : bodyLineOK l = true) (hd : l.data = ' ' :: r) (hcur : st.cur = some (c, k)) :
    cfStep st l = { st with line_no := st.line_no + 1 } := by
  obtain ⟨h1, h2, h3, h4, h5, h6, h7, h8, h9⟩ := bodyLineOK_fields h
  have hsp : swith l " " = true := swith_of_data (p := " ") (by rw [hd]; rfl)
  have hminus : swith l "-" = false := swith_head_ne hd rfl (by decide)
  have hplus : swith l "+" = false := swith_head_ne hd rfl (by decide)
  unfold cfStep
  rw [h3, hcur, hplus, hminus, hsp]
  simp
lemma cfChanges_cons (l : String) (ls : List String) (ln : Nat) :
    cfChanges ln (l :: ls) =
      if swith l "+" then
        { line_number := ln, ctype := "ADD", content := sdrop l 1 } :: cfChanges (ln + 1) ls
      else if swith l "-" then
        { line_number := ln, ctype := "DELETE", content := sdrop l 1 } :: cfChanges (ln + 1) ls
      else cfChanges (ln + 1) ls := rfl

lemma cfChanges_cons_plus {l : String} {r : List Char} (ls : List String) (ln : Nat)
    (hd : l.data = '+' :: r) :
    cfChanges ln (l :: ls) =
      { line_number := ln, ctype := "ADD", content := sdrop l 1 } :: cfChanges (ln + 1) ls := by
  rw [cfChanges_cons, swith_of_data (p := "+") (by rw [hd]; rfl)]
  simp

lemma cfChanges_cons_minus {l : String} {r : List Char} (ls : List String) (ln : Nat)
    (hd : l.data = '-' :: r) :
    cfChanges ln (l :: ls) =
      { line_number := ln, ctype := "DELETE", content := sdrop l 1 } :: cfChanges (ln + 1) ls := by
  rw [cfChanges_cons, swith_of_data (p := "-") (by rw [hd]; rfl),
    swith_head_ne hd rfl (by decide : '-' ≠ '+')]
  simp

lemma cfChanges_cons_ctx {l : String} {r : List Char} (ls : List String) (ln : Nat)
    (hd : l.data = ' ' :: r) :
    cfChanges ln (l :: ls) = cfChanges (ln + 1) ls := by
  rw [cfChanges_cons, swith_head_ne hd rfl (by decide : ' ' ≠ '+'),
    swith_head_ne hd rfl (by decide : ' ' ≠ '-')]
  simp

lemma cfScanBody : ∀ (body : List String), (∀ l ∈ body, bodyLineOK l = true) →
    ∀ (done : List Chunk) (c : Chunk) (k ln : Nat),
      body.foldl cfStep { done := done, cur := some (c, k), line_no := ln } =
        { done := done
          cur := some ({ c with changes := c.changes ++ cfChanges ln body }, k)
          line_no := ln + body.length } := by
  intro body
  induction body with
  | nil => intro _ done c k ln; simp [cfChanges]
  | cons l ls ih =>
    intro hok done c k ln
    have hl := hok l (List.mem_cons_self l ls)
    have hls : ∀ x ∈ ls, bodyLineOK x = true := fun x hx => hok x (List.mem_cons_of_mem l hx)
    rw [List.foldl_cons]
    rcases bodyLineOK_head hl with ⟨r, hd⟩ | ⟨r, hd⟩ | ⟨r, hd⟩
    · rw [cfStep_plus hl hd rfl, ih hls, cfChanges_cons_plus ls ln hd]
      simp only [CFState.mk.injEq, Chunk.mk.injEq, Option.some.injEq, Prod.mk.injEq,
        List.append_assoc, List.singleton_append, List.length_cons, true_and, and_true]
      omega
    · rw [cfStep_minus hl hd rfl, ih hls, cfChanges_cons_minus ls ln hd]
      simp only [CFState.mk.injEq, Chunk.mk.injEq, Option.some.injEq, Prod.mk.injEq,
        List.append_assoc, List.singleton_append, List.length_cons, true_and, and_true]
      omega
    · rw [cfStep_ctx hl hd rfl, ih hls, cfChanges_cons_ctx ls ln hd]
      simp only [CFState.mk.injEq, Option.some.injEq, List.length_cons, true_and, and_true]
      omega
lemma p7Dels_cons (l : String) (ls : List String) (o k : Nat) :
    p7Dels o k (l :: ls) =
      if swith l "+" then p7Dels o k ls
      else if swith l "-" then
        { line_number := o + k, content := sdrop l 1 } :: p7Dels o (k + 1) ls
      else p7Dels o (k + 1) ls := rfl

lemma p7Adds_cons (l : String) (ls : List String) (n a : Nat) :
    p7Adds n a (l :: ls) =
      if swith l "+" then
        { line_number := n + a, content := sdrop l 1 } :: p7Adds n (a + 1) ls
      else p7Adds n a ls := rfl

lemma countNonAdd_cons (l : String) (ls : List String) :
    countNonAdd (l :: ls) =
      if swith l "+" then countNonAdd ls else countNonAdd ls + 1 := by
  unfold countNonAdd
  rw [List.filter_cons]
  by_cases h : swith l "+" <;> simp [h]

lemma p7ScanBody : ∀ (body : List String), (∀ l ∈ body, bodyLineOK l = true) →
    ∀ (st : P7State), truthy st.current_file = true →
      body.foldl p7Step st =
        { st with
          deleted_lines := st.deleted_lines ++ p7Dels st.current_old_start st.line_offset body
          added_lines := st.added_lines ++ p7Adds st.current_new_start st.added_lines.length body
          line_offset := st.line_offset + countNonAdd body } := by
  intro body
  induction body with
  | nil =>
    intro _ st _
    simp [p7Dels, p7Adds, countNonAdd]
  | cons l ls ih =>
    intro hok st hcf
    have hl := hok l (List.mem_cons_self l ls)
    have hls : ∀ x ∈ ls, bodyLineOK x = true := fun x hx => hok x (List.mem_cons_of_mem l hx)
    rw [List.foldl_cons]
    rcases bodyLineOK_head hl with ⟨r, hd⟩ | ⟨r, hd⟩ | ⟨r, hd⟩
    · rw [p7Step_plus hl hd, if_pos hcf]
      rw [ih hls { st with added_lines := st.added_lines ++
        [{ line_number := st.current_new_start + st.added_lines.length, content := sdrop l 1 }] } hcf]
      rw [p7Adds_cons, swith_of_data (p := "+") (by rw [hd]; rfl),
        p7Dels_cons, swith_of_data (p := "+") (by rw [hd]; rfl),
        countNonAdd_cons, swith_of_data (p := "+") (by rw [hd]; rfl)]
      simp [List.append_assoc]
      try omega
    · rw [p7Step_minus hl hd, if_pos hcf]
      rw [ih hls { st with
        deleted_lines := st.deleted_lines ++
          [{ line_number := st.current_old_start + st.line_offset, content := sdrop l 1 }]
        line_offset := st.line_offset + 1 } hcf]
      rw [p7Dels_cons, swith_head_ne hd rfl (by decide : '-' ≠ '+'),
        swith_of_data (p := "-") (by rw [hd]; rfl),
        p7Adds_cons, swith_head_ne hd rfl (by decide : '-' ≠ '+'),
        countNonAdd_cons, swith_head_ne hd rfl (by decide : '-' ≠ '+')]
      simp [List.append_assoc]
      try omega
    · rw [p7Step_ctx hl hd]
      rw [ih hls { st with line_offset := st.line_offset + 1 } hcf]
      rw [p7Dels_cons, swith_head_ne hd rfl (by decide : ' ' ≠ '+'),
        swith_head_ne hd rfl (by decide : ' ' ≠ '-'),
        p7Adds_cons, swith_head_ne hd rfl (by decide : ' ' ≠ '+'),
        countNonAdd_cons, swith_head_ne hd rfl (by decide : ' ' ≠ '+')]
      simp [List.append_assoc]
      try omega
lemma p7Dels_ne_nil : ∀ (body : List String), (∀ l ∈ body, bodyLineOK l = true) →
    body.any (fun l => swith l "-") = true → ∀ o k, p7Dels o k body ≠ [] := by
  intro body
  induction body with
  | nil => intro _ h; cases h
  | cons l ls ih =>
    intro hok hany o k
    have hl := hok l (List.mem_cons_self l ls)
    have hls : ∀ x ∈ ls, bodyLineOK x = true := fun x hx => hok x (List.mem_cons_of_mem l hx)
    rw [List.any_cons] at hany
    rcases bodyLineOK_head hl with ⟨r, hd⟩ | ⟨r, hd⟩ | ⟨r, hd⟩
    · rw [p7Dels_cons, swith_of_data (p := "+") (by rw [hd]; rfl)]
      have : swith l "-" = false := swith_head_ne hd rfl (by decide)
      rw [this] at hany
      exact ih hls (by simpa using hany) o k
    · rw [p7Dels_cons, swith_head_ne hd rfl (by decide : '-' ≠ '+'),
        swith_of_data (p := "-") (by rw [hd]; rfl)]
      simp
    · rw [p7Dels_cons, swith_head_ne hd rfl (by decide : ' ' ≠ '+'),
        swith_head_ne hd rfl (by decide : ' ' ≠ '-')]
      have : swith l "-" = false := swith_head_ne hd rfl (by decide)
      rw [this] at hany
      exact ih hls (by simpa using hany) o (k + 1)

/-- Claim C2, amended: for a well-formed hunk, `_parse_diff_chunks` records
both ADD and DELETE lines at one counter that starts at the old start and
advances on every add, delete or context line, while `parse_diff_output`
records DELETE lines at the old start plus the number of prior delete and
context lines and ADD lines at the new start plus the number of prior add
lines only (context lines do not advance that counter, and ADD lines do
advance the single counter of `_parse_diff_chunks`). -/
theorem c2_parser_line_numbering (hline : String) (o oc n nc : Nat) (body : List String)
    (hsw : swith hline "@@" = true)
    (hhdr : cfHunkHeader hline = some (o, oc, n, nc))
    (hok : ∀ l ∈ body, bodyLineOK l = true) :
    parseDiffChunksLines (hline :: body) =
      [{ old_start := o, old_count := oc, new_start := n, new_count := nc,
         changes := cfChanges o body }] ∧
    (body.any (fun l => swith l "-") = true →
      parseDiffOutputLines ("--- a/F.java" :: "+++ b/F.java" :: hline :: body) =
        [("F.java",
          { deleted_lines := p7Dels o 0 body
            added_lines := p7Adds n 0 body
            old_path := some "F.java"
            new_path := none
            is_rename := false })]) := by
  obtain ⟨hr, hdat⟩ := (swith_iff hline "@@").mp hsw
  have hdata : hline.data = '@' :: '@' :: hr := by simpa using hdat
  constructor
  · unfold parseDiffChunksLines
    rw [List.foldl_cons]
    rw [show cfStep { done := [], cur := none, line_no := 0 } hline =
        { done := []
          cur := some ({ old_start := o
                         old_count := oc
                         new_start := n
                         new_count := nc
                         changes := [] }, 0)
          line_no := o } by
      unfold cfStep
      rw [hsw, hhdr]
      rfl]
    rw [cfScanBody body hok]
    simp
  · intro hdel
    unfold parseDiffOutputLines
    rw [List.foldl_cons, List.foldl_cons, List.foldl_cons]
    have hA : p7Step p7Init "--- a/F.java" =
        ⟨[], some "F.java", some "F.java", none, 0, 0, [], [], false, 0⟩ := by decide
    have hB : p7Step ⟨[], some "F.java", some "F.java", none, 0, 0, [], [], false, 0⟩
        "+++ b/F.java" =
        ⟨[], some "F.java", some "F.java", none, 0, 0, [], [], false, 0⟩ := by decide
    have hp7h : p7HunkHeader hline = some (o, n) := by
      unfold p7HunkHeader
      rw [hhdr]
    have hC : p7Step ⟨[], some "F.java", some "F.java", none, 0, 0, [], [], false, 0⟩ hline =
        ⟨[], some "F.java", some "F.java", none, o, n, [], [], false, 0⟩ := by
      unfold p7Step
      rw [swith_head_ne hdata rfl (by decide : '@' ≠ 'd'),
        swith_head_ne hdata rfl (by decide : '@' ≠ 'r'),
        swith_head_ne hdata rfl (by decide : '@' ≠ 'r'),
        swith_head_ne hdata rfl (by decide : '@' ≠ '-'),
        swith_head_ne hdata rfl (by decide : '@' ≠ '-'),
        swith_head_ne hdata rfl (by decide : '@' ≠ '+'),
        hsw, hp7h]
      rfl
    rw [hA, hB, hC]
    rw [p7ScanBody body hok ⟨[], some "F.java", some "F.java", none, o, n, [], [], false, 0⟩ rfl]
    have hne := p7Dels_ne_nil body hok hdel o 0
    unfold p7Save
    rw [show (([] : List LineEntry) ++ p7Dels o 0 body).isEmpty = false by
      simp only [List.nil_append]
      cases hpd : p7Dels o 0 body with
      | nil => exact absurd hpd hne
      | cons a as => rfl]
    simp [dictInsert_nil]
    decide
/-- Counterexample to claim C2 as stated: in the hunk `@@ -1,2 +1,2 @@` with
body `+a`, `-b`, the claimed two-counter numbering puts the DELETE at old
line 1, but `_parse_diff_chunks` advances its single counter on the ADD line
and records the DELETE at line 2. -/
theorem c2_counterexample : ¬ claimC2 := by
  intro h
  have h2 := h "@@ -1,2 +1,2 @@" 1 2 1 2 ["+a", "-b"] (by decide) (by decide) (by decide)
  exact absurd h2 (by decide)

/-- Witness for the amended C2 on a concrete hunk with a delete, a context
line and an add. -/
theorem c2_witness :
    parseDiffChunksLines ["@@ -3,2 +4,2 @@", "-x", " c", "+y"] =
      [{ old_start := 3, old_count := 2, new_start := 4, new_count := 2,
         changes := [{ line_number := 3, ctype := "DELETE", content := "x" },
                     { line_number := 5, ctype := "ADD", content := "y" }] }] ∧
    parseDiffOutputLines ["--- a/F.java", "+++ b/F.java", "@@ -3,2 +4,2 @@", "-x", " c", "+y"] =
      [("F.java",
        { deleted_lines := [{ line_number := 3, content := "x" }]
          added_lines := [{ line_number := 4, content := "y" }]
          old_path := some "F.java"
          new_path := none
          is_rename := false })] := by
  have H := c2_parser_line_numbering "@@ -3,2 +4,2 @@" 3 2 4 2 ["-x", " c", "+y"]
    (by decide) (by decide) (by decide)
  exact ⟨H.1.trans (by decide), (H.2 (by decide)).trans (by decide)⟩
/-- Claim C9 failing scenario: a matched one-parent commit yields a record
whose file data comes from the diff against its first parent, but a matched
parentless commit raises IndexError while `parent_full_sha` is evaluated, so
no record is produced and the rest of that branch scan is abandoned: with
the root commit first, even the matching child commit yields nothing, though
the root commit still enters the dedup set. -/
theorem c9_root_commit_no_record :
    (scanBranches ["ABC-1"] c9Repo "u" [("m", [c9Child])]).2.1 "ABC-1" = [c9Info] ∧
    (scanBranches ["ABC-1"] c9Repo "u" [("m", [c9Root, c9Child])]).2.1 "ABC-1" = [] ∧
    (scanBranches ["ABC-1"] c9Repo "u" [("m", [c9Root, c9Child])]).1 = ["root0000"] := by
  refine ⟨?_, ?_, ?_⟩ <;> decide
lemma appendMatched_cap {ci : CommitInfo} :
    ∀ (matched : List String) (results : String → List CommitInfo),
      (∀ k, (results k).length ≤ 5) →
      ∀ k, ((appendMatched ci results matched) k).length ≤ 5 := by
  intro matched
  induction matched with
  | nil => intro results h k; exact h k
  | cons m ms ih =>
    intro results h k
    unfold appendMatched at ih ⊢
    rw [List.foldl_cons]
    apply ih
    intro k2
    by_cases hm : (results m).length < 5
    · rw [if_pos hm]
      by_cases hk : k2 = m
      · rw [if_pos hk]
        simp only [List.length_append, List.length_cons, List.length_nil]
        omega
      · rw [if_neg hk]
        exact h k2
    · rw [if_neg hm]
      exact h k2

lemma appendMatched_parents {ci : CommitInfo} (hci : ci.num_parents ≤ 1) :
    ∀ (matched : List String) (results : String → List CommitInfo),
      (∀ k c, c ∈ results k → c.num_parents ≤ 1) →
      ∀ k c, c ∈ (appendMatched ci results matched) k → c.num_parents ≤ 1 := by
  intro matched
  induction matched with
  | nil => intro results h k c hc; exact h k c hc
  | cons m ms ih =>
    intro results h k c hc
    unfold appendMatched at ih hc
    rw [List.foldl_cons] at hc
    refine ih _ ?_ k c hc
    intro k2 c2 hc2
    by_cases hm : (results m).length < 5
    · rw [if_pos hm] at hc2
      by_cases hk : k2 = m
      · rw [if_pos hk] at hc2
        rcases List.mem_append.mp hc2 with h1 | h1
        · exact h m c2 h1
        · rw [List.mem_singleton.mp h1]
          exact hci
      · rw [if_neg hk] at hc2
        exact h k2 c2 hc2
    · rw [if_neg hm] at hc2
      exact h k2 c2 hc2

lemma buildCommitInfo_parents {repo : RepoModel} {url br : String} {c : SCommit}
    {ci : CommitInfo} (h : buildCommitInfo repo url br c = some ci) :
    ci.num_parents = c.parents.length := by
  unfold buildCommitInfo at h
  cases hp : c.parents with
  | nil => rw [hp] at h; cases h
  | cons p ps =>
    rw [hp] at h
    cases h
    simp [hp]
lemma scanCommits_inv (keys : List String) (repo : RepoModel) (url br : String) :
    ∀ (cs : List SCommit) (seen : List String) (results : String → List CommitInfo) (cnt : Nat),
      seen.Nodup →
      (∀ k, (results k).length ≤ 5) →
      (∀ k c, c ∈ results k → c.num_parents ≤ 1) →
      (scanCommits keys repo url br seen results cnt cs).1.Nodup ∧
      (∀ k, ((scanCommits keys repo url br seen results cnt cs).2.1 k).length ≤ 5) ∧
      (∀ k c, c ∈ (scanCommits keys repo url br seen results cnt cs).2.1 k →
        c.num_parents ≤ 1) ∧
      (scanCommits keys repo url br seen results cnt cs).2.2 ≤ cnt + cs.length := by
  intro cs
  induction cs with
  | nil =>
    intro seen results cnt h1 h2 h3
    exact ⟨h1, h2, h3, Nat.le_refl cnt⟩
  | cons c cs ih =>
    intro seen results cnt h1 h2 h3
    rw [show scanCommits keys repo url br seen results cnt (c :: cs) =
        (if c.hexsha ∈ seen then scanCommits keys repo url br seen results cnt cs
         else
          if 2 ≤ c.parents.length then
            scanCommits keys repo url br (seen ++ [c.hexsha]) results (cnt + 1) cs
          else
            if (keys.filter (fun k => scannerMatches k c.message)).isEmpty then
              scanCommits keys repo url br (seen ++ [c.hexsha]) results (cnt + 1) cs
            else
              match buildCommitInfo repo url br c with
              | none => (seen ++ [c.hexsha], results, cnt + 1)
              | some ci =>
                scanCommits keys repo url br (seen ++ [c.hexsha])
                  (appendMatched ci results (keys.filter (fun k => scannerMatches k c.message)))
                  (cnt + 1) cs) from rfl]
    by_cases hseen : c.hexsha ∈ seen
    · rw [if_pos hseen]
      obtain ⟨a1, a2, a3, a4⟩ := ih seen results cnt h1 h2 h3
      exact ⟨a1, a2, a3, by simpa using Nat.le_succ_of_le a4⟩
    · rw [if_neg hseen]
      have h1b : (seen ++ [c.hexsha]).Nodup := by
        simp [List.nodup_append, h1, hseen]
      by_cases hp : 2 ≤ c.parents.length
      · rw [if_pos hp]
        obtain ⟨a1, a2, a3, a4⟩ := ih (seen ++ [c.hexsha]) results (cnt + 1) h1b h2 h3
        exact ⟨a1, a2, a3, by simp only [List.length_cons]; omega⟩
      · rw [if_neg hp]
        by_cases hm : (keys.filter (fun k => scannerMatches k c.message)).isEmpty = true
        · rw [if_pos hm]
          obtain ⟨a1, a2, a3, a4⟩ := ih (seen ++ [c.hexsha]) results (cnt + 1) h1b h2 h3
          exact ⟨a1, a2, a3, by simp only [List.length_cons]; omega⟩
        · rw [if_neg hm]
          cases hb : buildCommitInfo repo url br c with
          | none =>
            exact ⟨h1b, h2, h3, by simp only [List.length_cons]; omega⟩
          | some ci =>
            have hci : ci.num_parents ≤ 1 := by
              rw [buildCommitInfo_parents hb]
              omega
            obtain ⟨a1, a2, a3, a4⟩ := ih (seen ++ [c.hexsha])
              (appendMatched ci results (keys.filter (fun k => scannerMatches k c.message)))
              (cnt + 1) h1b
              (appendMatched_cap _ _ h2)
              (appendMatched_parents hci _ _ h3)
            exact ⟨a1, a2, a3, by simp only [List.length_cons]; omega⟩
lemma scanBranches_go (keys : List String) (repo : RepoModel) (url : String) :
    ∀ (branches : List (String × List SCommit)) (seen : List String)
      (results : String → List CommitInfo) (perB : List Nat),
      seen.Nodup →
      (∀ k, (results k).length ≤ 5) →
      (∀ k c, c ∈ results k → c.num_parents ≤ 1) →
      (∀ m ∈ perB, m ≤ 50000) →
      (branches.foldl
        (fun acc br =>
          let r := scanCommits keys repo url br.1 acc.1 acc.2.1 0 (br.2.take 50000)
          (r.1, r.2.1, acc.2.2 ++ [r.2.2])) (seen, results, perB)).1.Nodup ∧
      (∀ k, ((branches.foldl
        (fun acc br =>
          let r := scanCommits keys repo url br.1 acc.1 acc.2.1 0 (br.2.take 50000)
          (r.1, r.2.1, acc.2.2 ++ [r.2.2])) (seen, results, perB)).2.1 k).length ≤ 5) ∧
      (∀ k c, c ∈ (branches.foldl
        (fun acc br =>
          let r := scanCommits keys repo url br.1 acc.1 acc.2.1 0 (br.2.take 50000)
          (r.1, r.2.1, acc.2.2 ++ [r.2.2])) (seen, results, perB)).2.1 k →
        c.num_parents ≤ 1) ∧
      (∀ m ∈ (branches.foldl
        (fun acc br =>
          let r := scanCommits keys repo url br.1 acc.1 acc.2.1 0 (br.2.take 50000)
          (r.1, r.2.1, acc.2.2 ++ [r.2.2])) (seen, results, perB)).2.2, m ≤ 50000) := by
  intro branches
  induction branches with
  | nil => intro seen results perB h1 h2 h3 h4; exact ⟨h1, h2, h3, h4⟩
  | cons br brs ih =>
    intro seen results perB h1 h2 h3 h4
    rw [List.foldl_cons]
    obtain ⟨a1, a2, a3, a4⟩ :=
      scanCommits_inv keys repo url br.1 (br.2.take 50000) seen results 0 h1 h2 h3
    refine ih _ _ _ a1 a2 a3 ?_
    intro m hm
    rcases List.mem_append.mp hm with hmem | hmem
    · exact h4 m hmem
    · rw [List.mem_singleton.mp hmem]
      calc (scanCommits keys repo url br.1 seen results 0 (br.2.take 50000)).2.2
          ≤ 0 + (br.2.take 50000).length := a4
        _ ≤ 50000 := by
            rw [List.length_take]
            omega

/-- Claim C8: over a whole scan, every issue keeps at most 5 commit records,
no record is a merge commit, the dedup set never holds a commit identifier
twice, each branch contributes at most 50000 newly processed commits, and
the step equations show that an unseen merge commit is added to the dedup
set without being matched while an already seen commit is skipped entirely. -/
theorem c8_scan_invariants (keys : List String) (repo : RepoModel) (url : String)
    (branches : List (String × List SCommit)) :
    (scanBranches keys repo url branches).1.Nodup ∧
    (∀ k, ((scanBranches keys repo url branches).2.1 k).length ≤ 5) ∧
    (∀ k ci, ci ∈ (scanBranches keys repo url branches).2.1 k → ci.num_parents ≤ 1) ∧
    (∀ m ∈ (scanBranches keys repo url branches).2.2, m ≤ 50000) ∧
    (∀ (br : String) (seen : List String) (results : String → List CommitInfo) (cnt : Nat)
        (c : SCommit) (cs : List SCommit), c.hexsha ∉ seen → 2 ≤ c.parents.length →
      scanCommits keys repo url br seen results cnt (c :: cs) =
        scanCommits keys repo url br (seen ++ [c.hexsha]) results (cnt + 1) cs) ∧
    (∀ (br : String) (seen : List String) (results : String → List CommitInfo) (cnt : Nat)
        (c : SCommit) (cs : List SCommit), c.hexsha ∈ seen →
      scanCommits keys repo url br seen results cnt (c :: cs) =
        scanCommits keys repo url br seen results cnt cs) := by
  obtain ⟨a1, a2, a3, a4⟩ :=
    scanBranches_go keys repo url branches [] (fun _ => []) []
      List.nodup_nil (fun k => by simp) (fun k c hc => by cases hc) (fun m hm => by cases hm)
  refine ⟨a1, a2, a3, a4, ?_, ?_⟩
  · intro br seen results cnt c cs hns hp
    rw [show scanCommits keys repo url br seen results cnt (c :: cs) =
        (if c.hexsha ∈ seen then scanCommits keys repo url br seen results cnt cs
         else
          if 2 ≤ c.parents.length then
            scanCommits keys repo url br (seen ++ [c.hexsha]) results (cnt + 1) cs
          else
            if (keys.filter (fun k => scannerMatches k c.message)).isEmpty then
              scanCommits keys repo url br (seen ++ [c.hexsha]) results (cnt + 1) cs
            else
              match buildCommitInfo repo url br c with
              | none => (seen ++ [c.hexsha], results, cnt + 1)
              | some ci =>
                scanCommits keys repo url br (seen ++ [c.hexsha])
                  (appendMatched ci results (keys.filter (fun k => scannerMatches k c.message)))
                  (cnt + 1) cs) from rfl]
    rw [if_neg hns, if_pos hp]
  · intro br seen results cnt c cs hs
    rw [show scanCommits keys repo url br seen results cnt (c :: cs) =
        (if c.hexsha ∈ seen then scanCommits keys repo url br seen results cnt cs
         else
          if 2 ≤ c.parents.length then
            scanCommits keys repo url br (seen ++ [c.hexsha]) results (cnt + 1) cs
          else
            if (keys.filter (fun k => scannerMatches k c.message)).isEmpty then
              scanCommits keys repo url br (seen ++ [c.hexsha]) results (cnt + 1) cs
            else
              match buildCommitInfo repo url br c with
              | none => (seen ++ [c.hexsha], results, cnt + 1)
              | some ci =>
                scanCommits keys repo url br (seen ++ [c.hexsha])
                  (appendMatched ci results (keys.filter (fun k => scannerMatches k c.message)))
                  (cnt + 1) cs) from rfl]
    rw [if_pos hs]

/-- Witness for C8: the cap at a concrete key and the merge-commit step
equation at a concrete unseen merge commit. -/
theorem c8_witness :
    ((scanBranches ["ABC-1"] c9Repo "u" [("m", [c9Child])]).2.1 "ABC-1").length ≤ 5 ∧
    scanCommits ["ABC-1"] c9Repo "u" "m" [] (fun _ => []) 0 [c8Merge] =
      scanCommits ["ABC-1"] c9Repo "u" "m" ["merge000"] (fun _ => []) 1 [] :=
  ⟨(c8_scan_invariants ["ABC-1"] c9Repo "u" [("m", [c9Child])]).2.1 "ABC-1",
   (c8_scan_invariants ["ABC-1"] c9Repo "u" [("m", [c9Child])]).2.2.2.2.1 "m" [] (fun _ => [])
     0 c8Merge [] (by decide) (by decide)⟩
lemma fixFilesOf_go (cf0 : List (String × FileInfo)) :
    ∀ (l : List FileInfo) (d : List (String × FileInfo)),
      l.foldl
        (fun d fd =>
          if fd.change_type == "MODIFY" || fd.change_type == "DELETE" ||
              fd.change_type == "RENAME"
          then dictInsert d fd.path fd else d) d = cf0 →
      ∀ kv ∈ cf0, kv ∈ d ∨
        (kv.2 ∈ l ∧ kv.2.path = kv.1 ∧
          (kv.2.change_type = "MODIFY" ∨ kv.2.change_type = "DELETE" ∨
            kv.2.change_type = "RENAME")) := by
  intro l
  induction l with
  | nil =>
    intro d hd kv hkv
    rw [List.foldl_nil] at hd
    exact Or.inl (hd ▸ hkv)
  | cons fd fs ih =>
    intro d hd kv hkv
    rw [List.foldl_cons] at hd
    by_cases hc : (fd.change_type == "MODIFY" || fd.change_type == "DELETE" ||
        fd.change_type == "RENAME") = true
    · rw [if_pos hc] at hd
      rcases ih (dictInsert d fd.path fd) hd kv hkv with hin | ⟨hm, hp, ht⟩
      · rcases mem_dictInsert hin with hin2 | heq
        · exact Or.inl hin2
        · refine Or.inr ⟨?_, ?_, ?_⟩
          · rw [heq]; exact List.mem_cons_self fd fs
          · rw [heq]
          · rw [heq]
            simp only [Bool.or_eq_true, beq_iff_eq] at hc
            tauto
      · exact Or.inr ⟨List.mem_cons_of_mem fd hm, hp, ht⟩
    · rw [if_neg hc] at hd
      rcases ih d hd kv hkv with hin | ⟨hm, hp, ht⟩
      · exact Or.inl hin
      · exact Or.inr ⟨List.mem_cons_of_mem fd hm, hp, ht⟩

lemma fixFilesOf_mem {cf : List FileInfo} :
    ∀ kv ∈ fixFilesOf cf, kv.2 ∈ cf ∧ kv.2.path = kv.1 ∧
      (kv.2.change_type = "MODIFY" ∨ kv.2.change_type = "DELETE" ∨
        kv.2.change_type = "RENAME") := by
  intro kv hkv
  rcases fixFilesOf_go (fixFilesOf cf) cf [] rfl kv hkv with hin | h
  · cases hin
  · exact h

lemma firstFileWithPath_of_mem :
    ∀ (cf : List FileInfo), (cf.map (fun fd => fd.path)).Nodup →
      ∀ {fd : FileInfo}, fd ∈ cf → firstFileWithPath cf fd.path = some fd := by
  intro cf
  induction cf with
  | nil => intro _ fd hfd; cases hfd
  | cons g gs ih =>
    intro hnd fd hfd
    rw [List.map_cons, List.nodup_cons] at hnd
    rcases List.mem_cons.mp hfd with rfl | hmem
    · unfold firstFileWithPath
      rw [List.find?_cons_of_pos _ (by simp)]
    · have hne : (g.path == fd.path) = false := by
        rw [beq_eq_false_iff_ne]
        intro he
        exact hnd.1 (he ▸ List.mem_map.mpr ⟨fd, hmem, rfl⟩)
      unfold firstFileWithPath at ih ⊢
      rw [List.find?_cons_of_neg _ (by simp [hne])]
      exact ih hnd.2 hmem
lemma renameStep_changes {cf : List FileInfo} {avSha fixSha : String}
    (hnd : (cf.map (fun fd => fd.path)).Nodup) (hne : ∀ fd ∈ cf, fd.path ≠ "")
    {st : AnalyzeState} {kv : String × FileInfo}
    (hkv : kv ∈ fixFilesOf cf) :
    ∀ r ∈ (renameStep cf avSha fixSha st kv).changes,
      r ∈ st.changes ∨
        ∃ fd, firstFileWithPath cf r.fix_filename = some fd ∧ fd.change_type ≠ "ADD" := by
  intro r hr
  obtain ⟨hmem, hpath, htype⟩ := fixFilesOf_mem kv hkv
  simp only [renameStep] at hr
  split at hr
  · split at hr
    · split at hr
      · exact Or.inl hr
      · split at hr
        · exact Or.inl hr
        · rename_i dd hdd fr hfr
          simp only [AnalyzeState.mk.injEq] at hr
          rcases List.mem_append.mp hr with h1 | h1
          · exact Or.inl h1
          · rw [List.mem_singleton.mp h1]
            obtain ⟨fc, hfc, _, _, hname⟩ := matchWithFixCommit_inv hfr
            have hkv1 : kv.1 ≠ "" := by
              rw [← hpath]
              exact hne kv.2 hmem
            have hlp : lookupPathOf (kv.2.old_path.getD "") (some kv.1) = kv.1 := by
              unfold lookupPathOf
              simp [hkv1]
            rw [hlp] at hfc hname
            refine Or.inr ⟨kv.2, ?_, ?_⟩
            · show firstFileWithPath cf _ = some kv.2
              rw [hname, ← hpath]
              exact firstFileWithPath_of_mem cf hnd hmem
            · rcases htype with h | h | h <;> simp [h]
    · exact Or.inl hr
  · exact Or.inl hr
lemma diffFileStep_changes {cf : List FileInfo} {avSha fixSha : String}
    (hnd : (cf.map (fun fd => fd.path)).Nodup) (hne : ∀ fd ∈ cf, fd.path ≠ "")
    {processed : List String} {changes : List MatchResult} {kv : String × DiffFileData} :
    ∀ r ∈ diffFileStep (fixFilesOf cf) cf avSha fixSha processed changes kv,
      r ∈ changes ∨
        ∃ fd, firstFileWithPath cf r.fix_filename = some fd ∧ fd.change_type ≠ "ADD" := by
  intro r hr
  simp only [diffFileStep] at hr
  split at hr
  · exact Or.inl hr
  · split at hr
    · exact Or.inl hr
    · rename_i pf hfound
      split at hr
      · exact Or.inl hr
      · rename_i fr hfr
        have hpf2 : pf ∈ fixFilesOf cf := by
          by_cases hren : kv.2.is_rename = true
          · rw [if_pos hren] at hfound
            exact List.mem_of_find?_eq_some hfound
          · rw [if_neg hren] at hfound
            cases hdl : dictLookup (fixFilesOf cf) kv.1 with
            | none => rw [hdl] at hfound; cases hfound
            | some fd0 =>
              rw [hdl] at hfound
              injection hfound with hpf1
              rw [← hpf1]
              exact dictLookup_mem hdl
        obtain ⟨hmem, hpath, htype⟩ := fixFilesOf_mem pf hpf2
        have hp1 : pf.1 ≠ "" := by rw [← hpath]; exact hne pf.2 hmem
        have hlp : lookupPathOf kv.1 (some pf.1) = pf.1 := by
          unfold lookupPathOf
          simp [hp1]
        obtain ⟨fc, hfc, _, _, hname⟩ := matchWithFixCommit_inv hfr
        rw [hlp] at hfc hname
        have hQ : ∃ fd, firstFileWithPath cf fr.fix_filename = some fd ∧
            fd.change_type ≠ "ADD" := by
          refine ⟨pf.2, ?_, ?_⟩
          · rw [hname, ← hpath]
            exact firstFileWithPath_of_mem cf hnd hmem
          · rcases htype with h | h | h <;> simp [h]
        split at hr <;>
          (rcases List.mem_append.mp hr with h1 | h1
           · exact Or.inl h1
           · rw [List.mem_singleton.mp h1]
             exact Or.inr hQ)
lemma renameLoop_changes {cf : List FileInfo} {avSha fixSha : String}
    (hnd : (cf.map (fun fd => fd.path)).Nodup) (hne : ∀ fd ∈ cf, fd.path ≠ "") :
    ∀ (l : List (String × FileInfo)), (∀ kv ∈ l, kv ∈ fixFilesOf cf) →
      ∀ (st : AnalyzeState),
        (∀ r ∈ st.changes,
          ∃ fd, firstFileWithPath cf r.fix_filename = some fd ∧ fd.change_type ≠ "ADD") →
        ∀ r ∈ (l.foldl (renameStep cf avSha fixSha) st).changes,
          ∃ fd, firstFileWithPath cf r.fix_filename = some fd ∧ fd.change_type ≠ "ADD" := by
  intro l
  induction l with
  | nil => intro _ st hst r hr; exact hst r hr
  | cons kv kvs ih =>
    intro hl st hst
    rw [List.foldl_cons]
    refine ih (fun x hx => hl x (List.mem_cons_of_mem kv hx)) _ ?_
    intro r hr
    rcases renameStep_changes hnd hne (hl kv (List.mem_cons_self kv kvs)) r hr with h1 | h1
    · exact hst r h1
    · exact h1

lemma diffLoop_changes {cf : List FileInfo} {avSha fixSha : String}
    (hnd : (cf.map (fun fd => fd.path)).Nodup) (hne : ∀ fd ∈ cf, fd.path ≠ "")
    {processed : List String} :
    ∀ (l : List (String × DiffFileData)) (changes : List MatchResult),
      (∀ r ∈ changes,
        ∃ fd, firstFileWithPath cf r.fix_filename = some fd ∧ fd.change_type ≠ "ADD") →
      ∀ r ∈ l.foldl (diffFileStep (fixFilesOf cf) cf avSha fixSha processed) changes,
        ∃ fd, firstFileWithPath cf r.fix_filename = some fd ∧ fd.change_type ≠ "ADD" := by
  intro l
  induction l with
  | nil => intro changes hch r hr; exact hch r hr
  | cons kv kvs ih =>
    intro changes hch
    rw [List.foldl_cons]
    refine ih _ ?_
    intro r hr
    rcases diffFileStep_changes hnd hne r hr with h1 | h1
    · exact hch r h1
    · exact h1

/-- Claim C3: under the well-formedness of real commit data (file paths are
unique and non-empty), every change entry of an analysis result originates
from a fix-commit file record whose change type is not ADD: newly added
files are excluded from matching, so in particular no entry with a
non-empty `modified_lines` list can come from an ADD-kind file. -/
theorem c3_no_add_file_matched (resolve : String → Option String)
    (project fix_sha av : String) (cf : List FileInfo) (diffText : String)
    (hnd : (cf.map (fun fd => fd.path)).Nodup) (hne : ∀ fd ∈ cf, fd.path ≠ "") :
    ∀ r ∈ (analyzeFixCommit resolve project fix_sha av cf diffText).changes,
      ∃ fd, firstFileWithPath cf r.fix_filename = some fd ∧ fd.change_type ≠ "ADD" := by
  intro r hr
  unfold analyzeFixCommit at hr
  cases hres : resolve av with
  | none =>
    rw [hres] at hr
    cases hr
  | some avSha =>
    rw [hres] at hr
    simp only [] at hr
    exact diffLoop_changes hnd hne _ _
      (renameLoop_changes hnd hne (fixFilesOf cf) (fun kv hkv => hkv)
        { adr := parseDiffOutput diffText, processed := [], changes := [] }
        (fun r hr => by cases hr))
      r hr
/-- Witness for C3 at a concrete analysis: the single produced change entry
points back to a MODIFY-kind fix file. -/
theorem c3_witness : firstFileWithPath c3Files c3Entry.fix_filename ≠ none := by
  obtain ⟨fd, hfd, _⟩ := c3_no_add_file_matched (fun _ => some "avsha") "hbase" "fixsha" "2.0.0"
    c3Files c3DiffText (by decide) (by decide) c3Entry (by decide)
  rw [hfd]
  exact fun h => Option.noConfusion h
